import Mathlib

/-!
# Verification of the OmniProfiler specification against its source

Shallow embedding of the parts of the profiler that the specification's
claims are about:

* `code/profiler/comparator.py` — report comparison (`ProfilerComparator`);
* `code/profiler/orchestrator.py` — the substituted `input()` hook (`MockInput`);
* `code/profiler/metrics/*.py` — the five instrumentation probes;
* `code/profiler/static/complexity.py` — the Big-O estimator (`BigOVisitor`);
* `code/profiler/static/call_graph.py` — the call-graph builder;
* `code/profiler/dynamic/profiler.py` — `_extract_line_profiles`.

Python numbers are modelled as `ℚ` (exact arithmetic) or `ℤ`/`ℕ`; Python
dictionaries as association lists in insertion order (assignment to an
existing key overwrites in place, a new key is appended at the end);
`None`/absent values as `Option`; exceptions as `Except`.
-/

/-! ## Comparator (`code/profiler/comparator.py`) -/

/-- One per-metric comparison record, the dict literal built at
`comparator.py:43-49` (and the identical literals in `_compare_gc` and
`_compare_allocations`). -/
structure CompEntry where
  baseline : ℚ
  comparison : ℚ
  diff : ℚ
  pct : ℚ
  status : String
  deriving DecidableEq, Repr

/-- The gc section of a report's `dynamic_analysis`: `total_objects` plus the
`collections` sub-dict (its values are what `_compare_gc` sums). `none` models
an absent or `None` value (both are sent to `0` by `.get(k, 0) or 0`). -/
structure GCSectionR where
  total_objects : Option ℚ
  collections : List (String × ℚ)

/-- The `dynamic_analysis` sub-dict of a report, with each simple section
modelled as a partial map from metric name to value. -/
structure DynamicAnalysis where
  time : String → Option ℚ
  memory : String → Option ℚ
  gc : GCSectionR
  allocations : String → Option ℚ

/-- A profiling report, as far as the comparator reads it. -/
structure Report where
  dynamic_analysis : DynamicAnalysis

/-- The per-metric body shared verbatim by `_compare_section` (lines 29-48),
`_compare_gc` (lines 60-71 and 74-85) and `_compare_allocations`
(lines 99-111): diff, guarded percentage, and lower-is-better status. -/
def compareOne (val_a val_b : ℚ) : CompEntry :=
  let diff := val_b - val_a
  let pct := if val_a ≠ 0 then diff / val_a * 100 else 0
  let status := if diff < 0 then "improved" else if diff > 0 then "degraded" else "neutral"
  ⟨val_a, val_b, diff, pct, status⟩

/-- `ProfilerComparator._compare_section`: for each metric name, read both
sides with `float(data.get(metric, 0) or 0)` (absent/`None` → `0`) and build
the comparison entry. -/
def compareSection (data_a data_b : String → Option ℚ) (metrics : List String) :
    List (String × CompEntry) :=
  metrics.map (fun metric => (metric, compareOne ((data_a metric).getD 0) ((data_b metric).getD 0)))

/-- `ProfilerComparator._compare_gc`: `total_objects` via `.get(...) or 0`,
then `total_collections` from the per-generation sums of each side. -/
def compareGC (report_a report_b : Report) : List (String × CompEntry) :=
  let gc_a := report_a.dynamic_analysis.gc
  let gc_b := report_b.dynamic_analysis.gc
  let col_a := (gc_a.collections.map (fun p => p.2)).sum
  let col_b := (gc_b.collections.map (fun p => p.2)).sum
  [("total_objects", compareOne (gc_a.total_objects.getD 0) (gc_b.total_objects.getD 0)),
   ("total_collections", compareOne col_a col_b)]

/-- `ProfilerComparator.compare`: the four sections with their fixed metric
lists (`_compare_allocations` runs the same loop as `_compare_section` over
its own two metric names). -/
structure Comparison where
  time : List (String × CompEntry)
  memory : List (String × CompEntry)
  gc : List (String × CompEntry)
  allocations : List (String × CompEntry)

/-- `ProfilerComparator.compare` (comparator.py:8-19). -/
def comparatorCompare (report_a report_b : Report) : Comparison :=
  { time := compareSection report_a.dynamic_analysis.time report_b.dynamic_analysis.time
      ["wall_time", "cpu_time"],
    memory := compareSection report_a.dynamic_analysis.memory report_b.dynamic_analysis.memory
      ["peak_memory", "current_memory"],
    gc := compareGC report_a report_b,
    allocations := compareSection report_a.dynamic_analysis.allocations
      report_b.dynamic_analysis.allocations ["total_size_bytes", "total_allocations"] }

/-- What claim C1 asserts of one comparison entry, given the two raw report
values: baseline/comparison coercion, diff, guarded pct, and the three
status characterisations. -/
def ClaimedEntry (x y : Option ℚ) (e : CompEntry) : Prop :=
  e.baseline = x.getD 0 ∧ e.comparison = y.getD 0 ∧ e.diff = e.comparison - e.baseline ∧
  (e.baseline ≠ 0 → e.pct = e.diff / e.baseline * 100) ∧ (e.baseline = 0 → e.pct = 0) ∧
  (e.status = "improved" ↔ e.diff < 0) ∧ (e.status = "degraded" ↔ 0 < e.diff) ∧
  (e.status = "neutral" ↔ e.diff = 0)

/-! ## Mock input hook (`code/profiler/orchestrator.py`) -/

/-- State of `MockInput` (orchestrator.py:132-151 and 318-331): the input
sequence, the next index, the construction time and the timeout bound. -/
structure MockInputState where
  inputs : List String
  index : Nat
  start_time : ℚ
  timeout : ℚ

/-- `MockInput.__call__` of the measured pass (orchestrator.py:139-151):
timeout check first, then either the next input (advancing the index) or the
last input (`"exit"` when the sequence is empty). `now` is the value of
`time.time()` at the invocation. -/
def mockInputCall (st : MockInputState) (now : ℚ) : Except String (String × MockInputState) :=
  let elapsed := now - st.start_time
  if elapsed > st.timeout then
    Except.error ("Execution timeout (" ++ toString st.timeout ++ "s limit)")
  else if h : st.index < st.inputs.length then
    Except.ok (st.inputs.get ⟨st.index, h⟩, { st with index := st.index + 1 })
  else
    Except.ok ((match st.inputs.getLast? with | some v => v | none => "exit"), st)

/-- `MockInput.__call__` of the line-level pass (orchestrator.py:324-331);
identical logic, slightly different timeout message. -/
def mockInputCallLine (st : MockInputState) (now : ℚ) : Except String (String × MockInputState) :=
  if now - st.start_time > st.timeout then
    Except.error ("Execution timeout (" ++ toString st.timeout ++ "s)")
  else if h : st.index < st.inputs.length then
    Except.ok (st.inputs.get ⟨st.index, h⟩, { st with index := st.index + 1 })
  else
    Except.ok ((match st.inputs.getLast? with | some v => v | none => "exit"), st)

/-! ## Memory probe (`code/profiler/metrics/memory_metrics.py`) -/

/-- `MemoryCollector` fields (memory_metrics.py:10-15). -/
structure MemState where
  peak_memory : ℤ
  current_memory : ℤ
  was_tracing : Bool
  baseline_current : ℤ
  baseline_peak : ℤ

/-- `MemoryCollector.__init__`. -/
def memInit : MemState := ⟨0, 0, false, 0, 0⟩

/-- `MemoryCollector.__exit__` (memory_metrics.py:34-55): `current`/`peak`
are the tracer readings `tracemalloc.get_traced_memory()` at exit. -/
def memExit (st : MemState) (current peak : ℤ) : MemState :=
  { st with current_memory := max 0 (current - st.baseline_current),
            peak_memory := max peak st.baseline_peak - st.baseline_peak }

/-- `MemoryCollector.get_metrics` (memory_metrics.py:57-62). -/
def memGetMetrics (st : MemState) : List (String × ℤ) :=
  [("current_memory", st.current_memory), ("peak_memory", st.peak_memory)]

/-! ## CPU probe (`code/profiler/metrics/cpu_collector.py`) -/

/-- A `psutil` `cpu_times()` reading. -/
structure CpuTimes where
  user : ℚ
  system : ℚ

/-- A `psutil` `num_ctx_switches()` reading. -/
structure CtxSwitches where
  voluntary : ℤ
  involuntary : ℤ

/-- A `resource.getrusage` reading (the two fields the collector uses). -/
structure Rusage where
  ru_nvcsw : ℤ
  ru_nivcsw : ℤ

/-- `EnhancedCPUCollector` fields; `hasResource` is the module flag
`HAS_RESOURCE`. `none` models `None` (or a reading that raised). -/
structure CPUState where
  start_cpu : Option CpuTimes
  end_cpu : Option CpuTimes
  start_ctx_switches : Option CtxSwitches
  end_ctx_switches : Option CtxSwitches
  start_rusage : Option Rusage
  hasResource : Bool

/-- `EnhancedCPUCollector.__init__` (with ambient `HAS_RESOURCE`). -/
def cpuInit (hasResource : Bool) : CPUState := ⟨none, none, none, none, none, hasResource⟩

/-- The dict returned by `EnhancedCPUCollector.get_metrics`; the optional
`context_switches` pair is `(voluntary, involuntary)`. `none` as a whole
models the empty dict returned at line 69. -/
structure CPUMetrics where
  user_time : ℚ
  system_time : ℚ
  cpu_percent : ℚ
  context_switches : Option (ℤ × ℤ)

/-- `EnhancedCPUCollector.get_metrics` (cpu_collector.py:61-106). `usageNow`
is the `resource.getrusage` reading taken inside the method (`none` when the
call raised), `cpuPercentNow` the ambient `cpu_percent` reading. -/
def cpuGetMetrics (st : CPUState) (usageNow : Option Rusage) (cpuPercentNow : ℚ) :
    Option CPUMetrics :=
  match st.start_cpu, st.end_cpu with
  | some sc, some ec =>
    let base : CPUMetrics := ⟨ec.user - sc.user, ec.system - sc.system, cpuPercentNow, none⟩
    let fallback : CPUMetrics :=
      match st.start_ctx_switches, st.end_ctx_switches with
      | some s0, some e0 =>
        { base with
          context_switches :=
            some (max 0 (e0.voluntary - s0.voluntary), max 0 (e0.involuntary - s0.involuntary)) }
      | _, _ => base
    if st.hasResource then
      match st.start_rusage, usageNow with
      | some sr, some usage =>
        some { base with
               context_switches :=
                 some (max 0 (usage.ru_nvcsw - sr.ru_nvcsw),
                       max 0 (usage.ru_nivcsw - sr.ru_nivcsw)) }
      | _, _ => some fallback
    else some fallback
  | _, _ => none

/-! ## Time probe (`code/profiler/metrics/time_metrics.py`) -/

/-- A value in the time probe's metrics dict: a number, or the percentile
sub-dict. The percentile statistics are computed by numpy (an external
library) from the sample list, so the sub-dict is modelled by the sample
list it is a function of; no claim depends on its numeric content. -/
inductive TVal where
  | num (q : ℚ)
  | percentiles (samples : List ℚ)
  deriving DecidableEq, Repr

/-- `TimeCollector` fields (time_metrics.py:9-15). -/
structure TimeState where
  start_time : ℚ
  end_time : ℚ
  start_cpu : ℚ
  end_cpu : ℚ
  track_samples : Bool
  samples : List ℚ

/-- `TimeCollector.__init__` (default `track_samples=False`). -/
def timeInit (track_samples : Bool) : TimeState := ⟨0, 0, 0, 0, track_samples, []⟩

/-- `TimeCollector.get_metrics` (time_metrics.py:29-51). -/
def timeGetMetrics (st : TimeState) : List (String × TVal) :=
  let wall_time := st.end_time - st.start_time
  let cpu_time := st.end_cpu - st.start_cpu
  let metrics := [("wall_time", TVal.num wall_time), ("cpu_time", TVal.num cpu_time)]
  if !st.samples.isEmpty && st.samples.length > 0 then
    metrics ++ [("percentiles", TVal.percentiles st.samples)]
  else metrics

/-! ## GC probe (`code/profiler/metrics/gc_collector.py`) -/

/-- A value in the GC probe's metrics dict (number, sub-dict, or flag). -/
inductive GVal where
  | num (n : ℤ)
  | dict (entries : List (String × ℤ))
  | flag (b : Bool)
  deriving DecidableEq, Repr

/-- `GCCollector` state: `start_count` is `None` until `__enter__`;
`end_count` is only assigned by `__exit__` (before that the attribute does
not exist, which `get_metrics` never observes because the `start_count`
test short-circuits first). -/
structure GCState where
  start_count : Option (Nat × Nat × Nat)
  end_count : Option (Nat × Nat × Nat)

/-- `GCCollector.__init__`. -/
def gcInit : GCState := ⟨none, none⟩

/-- `GCCollector.get_metrics` (gc_collector.py:36-76). `countNow`,
`thresholds`, `totalObjects`, `enabled` are the ambient `gc` readings taken
inside the method. -/
def gcGetMetrics (st : GCState) (countNow : Nat × Nat × Nat) (thresholds : Nat × Nat × Nat)
    (totalObjects : Nat) (enabled : Bool) : List (String × GVal) :=
  match st.start_count with
  | none => []
  | some sc =>
    match st.end_count with
    | none => []
    | some ec =>
      [("collections", GVal.dict
         [("gen0", (ec.1 : ℤ) - sc.1), ("gen1", (ec.2.1 : ℤ) - sc.2.1),
          ("gen2", (ec.2.2 : ℤ) - sc.2.2)]),
       ("objects_per_gen", GVal.dict
         [("gen0", (countNow.1 : ℤ)), ("gen1", (countNow.2.1 : ℤ)),
          ("gen2", (countNow.2.2 : ℤ))]),
       ("total_objects", GVal.num totalObjects),
       ("thresholds", GVal.dict
         [("gen0", (thresholds.1 : ℤ)), ("gen1", (thresholds.2.1 : ℤ)),
          ("gen2", (thresholds.2.2 : ℤ))]),
       ("is_enabled", GVal.flag enabled)]

/-! ## Allocation probe (`code/profiler/metrics/allocation_collector.py`) -/

/-- Python's `round(x, d)`: round half to even at `d` decimal digits. -/
def roundHalfEven (x : ℚ) : ℤ :=
  let f := Int.floor x
  let r := x - f
  if r < 1/2 then f
  else if 1/2 < r then f + 1
  else if f % 2 = 0 then f else f + 1

/-- Python's two-argument `round` on exact rationals. -/
def pyRound (x : ℚ) (d : Nat) : ℚ := (roundHalfEven (x * 10 ^ d) : ℚ) / 10 ^ d

/-- One `tracemalloc` statistic: traceback frames as `(filename, lineno)`
pairs, with byte size and allocation count. -/
structure TStat where
  traceback : List (String × Nat)
  size : ℤ
  count : ℤ

/-- A captured `tracemalloc` snapshot, carrying the statistics that
`snapshot.statistics('lineno')` and `snapshot.statistics('filename')`
return (these are computed by the external `tracemalloc` library). -/
structure Snapshot where
  lineno_stats : List TStat
  filename_stats : List TStat

/-- `AllocationCollector` state: `snapshot` is `None` until `__exit__`. -/
structure AllocState where
  snapshot : Option Snapshot
  was_tracing : Bool

/-- `AllocationCollector.__init__`. -/
def allocInit : AllocState := ⟨none, false⟩

/-- One entry of the `top_allocators` list (allocation_collector.py:51-56). -/
structure TopAllocator where
  file : String
  size_bytes : ℤ
  size_kb : ℚ
  count : ℤ

/-- The dict returned by `AllocationCollector.get_metrics`; `none` models
the empty dict returned at line 38. -/
structure AllocMetrics where
  top_allocators : List TopAllocator
  total_size_bytes : ℤ
  total_size_mb : ℚ
  total_allocations : ℤ

/-- `AllocationCollector.get_metrics` (allocation_collector.py:30-68). -/
def allocGetMetrics (st : AllocState) : Option AllocMetrics :=
  match st.snapshot with
  | none => none
  | some snap =>
    let top_stats := snap.lineno_stats.take 10
    let top_allocators := top_stats.map (fun stat =>
      let traceback_str :=
        match stat.traceback with
        | [] => "Unknown"
        | frame :: _ => frame.1 ++ ":" ++ toString frame.2
      (⟨traceback_str, stat.size, pyRound ((stat.size : ℚ) / 1024) 2, stat.count⟩ : TopAllocator))
    let total_size := (snap.filename_stats.map (fun stat => stat.size)).sum
    let total_count := (snap.filename_stats.map (fun stat => stat.count)).sum
    some ⟨top_allocators, total_size, pyRound ((total_size : ℚ) / 1024 / 1024) 2, total_count⟩

/-! ## Python AST fragment used by the static analyses

The sublanguage of Python syntax that the Big-O estimator and the
call-graph builder inspect: bare names, attribute accesses, calls and
other (opaque) expressions; function/class definitions, `for`/`while`
loops, expression statements and other (opaque) simple statements.
`generic_visit` traverses child nodes in field order, which the visitor
functions below mirror. -/

mutual
inductive PExpr where
  | name (id : String) : PExpr
  | attr (value : PExpr) (attrName : String) : PExpr
  | call (func : PExpr) (args : PExprList) : PExpr
  | lit : PExpr
inductive PExprList where
  | nil : PExprList
  | cons (head : PExpr) (tail : PExprList) : PExprList
end

mutual
inductive PStmt where
  | funcDef (nm : String) (body : PStmtList) : PStmt
  | classDef (nm : String) (body : PStmtList) : PStmt
  | forLoop (iter : PExpr) (body : PStmtList) : PStmt
  | whileLoop (test : PExpr) (body : PStmtList) : PStmt
  | exprStmt (e : PExpr) : PStmt
  | passStmt : PStmt
inductive PStmtList where
  | nil : PStmtList
  | cons (head : PStmt) (tail : PStmtList) : PStmtList
end

/-- Qualified function name: `f"{current_class}.{name}"` when a class is
current, else the bare name (complexity.py:132-134, call_graph.py:20-22). -/
def qualName (cls : Option String) (nm : String) : String :=
  match cls with
  | some c => c ++ "." ++ nm
  | none => nm

/-! ## Big-O estimator (`code/profiler/static/complexity.py`) -/

/-- `BigOVisitor` instance state (complexity.py:117-123). `results` is the
insertion-ordered dict of qualified name to complexity label. -/
structure BigOState where
  results : List (String × String)
  current_function : Option String
  current_class : Option String
  loop_depth : Nat
  max_loop_depth : Nat
  is_recursive : Bool

/-- Python dict assignment `d[k] = v`: overwrite in place, else append. -/
def dictInsert (l : List (String × String)) (k v : String) : List (String × String) :=
  if l.any (fun p => p.1 == k) then l.map (fun p => if p.1 == k then (k, v) else p)
  else l ++ [(k, v)]

/-- The depth-to-label map of `visit_FunctionDef` (complexity.py:144-153). -/
def bigOLabel (d : Nat) : String :=
  if d == 0 then "O(1)"
  else if d == 1 then "O(n)"
  else if d == 2 then "O(n^2)"
  else if d == 3 then "O(n^3)"
  else "O(n^" ++ toString d ++ ")"

/-- Callee resolution of `BigOVisitor.visit_Call` (complexity.py:176-183):
a bare name resolves to itself; `self.m(...)` resolves to
`f"{current_class}.m"` when a class is current; everything else to `None`. -/
def bigOCallee (cls : Option String) : PExpr → Option String
  | PExpr.name id => some id
  | PExpr.attr v a =>
    match v with
    | PExpr.name vid =>
      if vid == "self" then
        match cls with
        | some c => some (c ++ "." ++ a)
        | none => none
      else none
    | _ => none
  | _ => none

mutual
/-- `BigOVisitor` dispatch on one expression node. `visit_Call`
(complexity.py:173-188) marks `is_recursive` when the resolved callee equals
the current function, then `generic_visit` descends into `func` and `args`;
other expression nodes have no handler, so only their children are visited. -/
def bigOVisitExpr (s : BigOState) : PExpr → BigOState
  | PExpr.name _ => s
  | PExpr.lit => s
  | PExpr.attr v _ => bigOVisitExpr s v
  | PExpr.call f args =>
    let s1 :=
      match s.current_function with
      | none => s
      | some cf =>
        match bigOCallee s.current_class f with
        | some c => if c == cf then { s with is_recursive := true } else s
        | none => s
    bigOVisitExprs (bigOVisitExpr s1 f) args
def bigOVisitExprs (s : BigOState) : PExprList → BigOState
  | PExprList.nil => s
  | PExprList.cons e rest => bigOVisitExprs (bigOVisitExpr s e) rest
end

mutual
/-- `BigOVisitor` dispatch on one statement node: `visit_FunctionDef`
(complexity.py:131-159) resets `max_loop_depth`/`is_recursive`, visits the
body, records the label and restores only `current_function`;
`visit_ClassDef` (125-129) swaps `current_class`; `visit_For`/`visit_While`
(161-171) bump the loop depth around their children. -/
def bigOVisitStmt (s : BigOState) : PStmt → BigOState
  | PStmt.funcDef nm body =>
    let func_name := qualName s.current_class nm
    let s1 : BigOState :=
      { s with current_function := some func_name, max_loop_depth := 0, is_recursive := false }
    let s2 := bigOVisitStmts s1 body
    let complexity :=
      bigOLabel s2.max_loop_depth ++ (if s2.is_recursive then " (Recursive)" else "")
    { s2 with results := dictInsert s2.results func_name complexity,
              current_function := s.current_function }
  | PStmt.classDef nm body =>
    let s1 : BigOState := { s with current_class := some nm }
    let s2 := bigOVisitStmts s1 body
    { s2 with current_class := s.current_class }
  | PStmt.forLoop iter body =>
    let s1 : BigOState :=
      { s with loop_depth := s.loop_depth + 1,
               max_loop_depth := max s.max_loop_depth (s.loop_depth + 1) }
    let s2 := bigOVisitStmts (bigOVisitExpr s1 iter) body
    { s2 with loop_depth := s2.loop_depth - 1 }
  | PStmt.whileLoop test body =>
    let s1 : BigOState :=
      { s with loop_depth := s.loop_depth + 1,
               max_loop_depth := max s.max_loop_depth (s.loop_depth + 1) }
    let s2 := bigOVisitStmts (bigOVisitExpr s1 test) body
    { s2 with loop_depth := s2.loop_depth - 1 }
  | PStmt.exprStmt e => bigOVisitExpr s e
  | PStmt.passStmt => s
def bigOVisitStmts (s : BigOState) : PStmtList → BigOState
  | PStmtList.nil => s
  | PStmtList.cons t rest => bigOVisitStmts (bigOVisitStmt s t) rest
end

/-- `BigOVisitor.__init__`. -/
def bigOInit : BigOState := ⟨[], none, none, 0, 0, false⟩

/-- `ComplexityAnalyzer.analyze_big_o` (complexity.py:102-114): the argument
is the outcome of `ast.parse` on the source text; a parse error is caught
and yields the empty dict. -/
def analyzeBigO (parsed : Except String PStmtList) : List (String × String) :=
  match parsed with
  | Except.error _ => []
  | Except.ok m => (bigOVisitStmts bigOInit m).results

/-! ## Call-graph builder (`code/profiler/static/call_graph.py`) -/

/-- `CallGraphVisitor` instance state (call_graph.py:8-11). -/
structure CGState where
  graph : List (String × List String)
  current_function : Option String
  current_class : Option String

/-- `self.graph[func_name] = []` (call_graph.py:26): Python dict assignment. -/
def cgReset (g : List (String × List String)) (k : String) : List (String × List String) :=
  if g.any (fun p => p.1 == k) then g.map (fun p => if p.1 == k then (k, []) else p)
  else g ++ [(k, [])]

/-- `self.graph[self.current_function].append(callee)` (call_graph.py:36). -/
def cgAppend (g : List (String × List String)) (k : String) (c : String) :
    List (String × List String) :=
  g.map (fun p => if p.1 == k then (p.1, p.2 ++ [c]) else p)

/-- `CallGraphVisitor._get_callee_name` (call_graph.py:40-47): a bare name
records itself, an attribute access records only the trailing attribute. -/
def cgCalleeName : PExpr → Option String
  | PExpr.name id => some id
  | PExpr.attr _ a => some a
  | _ => none

mutual
/-- `CallGraphVisitor` dispatch on one expression node: `visit_Call`
(call_graph.py:32-38) appends the callee name to the current function's
adjacency list (if inside one), then descends. -/
def cgVisitExpr (s : CGState) : PExpr → CGState
  | PExpr.name _ => s
  | PExpr.lit => s
  | PExpr.attr v _ => cgVisitExpr s v
  | PExpr.call f args =>
    let s1 :=
      match s.current_function with
      | none => s
      | some cf =>
        match cgCalleeName f with
        | some c => { s with graph := cgAppend s.graph cf c }
        | none => s
    cgVisitExprs (cgVisitExpr s1 f) args
def cgVisitExprs (s : CGState) : PExprList → CGState
  | PExprList.nil => s
  | PExprList.cons e rest => cgVisitExprs (cgVisitExpr s e) rest
end

mutual
/-- `CallGraphVisitor` dispatch on one statement node: `visit_FunctionDef`
(call_graph.py:19-30) creates the empty adjacency entry, visits the body and
restores `current_function`; `visit_ClassDef` (13-17) swaps `current_class`;
loops have no handler so only their children are visited. -/
def cgVisitStmt (s : CGState) : PStmt → CGState
  | PStmt.funcDef nm body =>
    let func_name := qualName s.current_class nm
    let s1 : CGState :=
      { s with graph := cgReset s.graph func_name, current_function := some func_name }
    let s2 := cgVisitStmts s1 body
    { s2 with current_function := s.current_function }
  | PStmt.classDef nm body =>
    let s1 : CGState := { s with current_class := some nm }
    let s2 := cgVisitStmts s1 body
    { s2 with current_class := s.current_class }
  | PStmt.forLoop iter body => cgVisitStmts (cgVisitExpr s iter) body
  | PStmt.whileLoop test body => cgVisitStmts (cgVisitExpr s test) body
  | PStmt.exprStmt e => cgVisitExpr s e
  | PStmt.passStmt => s
def cgVisitStmts (s : CGState) : PStmtList → CGState
  | PStmtList.nil => s
  | PStmtList.cons t rest => cgVisitStmts (cgVisitStmt s t) rest
end

/-- `CallGraphBuilder.build` (call_graph.py:52-63): the argument is the
outcome of `ast.parse`; a parse error is caught and yields the empty dict. -/
def buildCallGraph (parsed : Except String PStmtList) : List (String × List String) :=
  match parsed with
  | Except.error _ => []
  | Except.ok m => (cgVisitStmts ⟨[], none, none⟩ m).graph

/-! ## Specification-side definitions for the static analyses

These definitions follow the specification's words (not the visitor code):
per-function lexical loop depth, direct self-recursion, per-function callee
sequences, and the enumeration of the function definitions of a module. -/

mutual
/-- Specification-side maximum loop-nesting depth: the deepest loop nesting
reached by loops lexically inside the given statements, where `d` is the
nesting already surrounding them; loops inside a nested function definition
are not counted. -/
def maxDepthFromStmt (d : Nat) : PStmt → Nat
  | PStmt.funcDef _ _ => 0
  | PStmt.classDef _ body => maxDepthFromStmts d body
  | PStmt.forLoop _ body => max (d + 1) (maxDepthFromStmts (d + 1) body)
  | PStmt.whileLoop _ body => max (d + 1) (maxDepthFromStmts (d + 1) body)
  | PStmt.exprStmt _ => 0
  | PStmt.passStmt => 0
def maxDepthFromStmts (d : Nat) : PStmtList → Nat
  | PStmtList.nil => 0
  | PStmtList.cons t rest => max (maxDepthFromStmt d t) (maxDepthFromStmts d rest)
end

mutual
/-- Specification-side direct self-recursion test on an expression: some
call in it resolves (a bare identifier to itself, `self.m` to
`currentClass.m`) to the qualified name `q`. -/
def specRecExpr (q : String) (cls : Option String) : PExpr → Bool
  | PExpr.name _ => false
  | PExpr.lit => false
  | PExpr.attr v _ => specRecExpr q cls v
  | PExpr.call f args =>
    (bigOCallee cls f == some q) || specRecExpr q cls f || specRecExprs q cls args
def specRecExprs (q : String) (cls : Option String) : PExprList → Bool
  | PExprList.nil => false
  | PExprList.cons e rest => specRecExpr q cls e || specRecExprs q cls rest
end

mutual
/-- Specification-side direct self-recursion test on statements, tracking
the current class for `self.m` resolution; calls inside a nested function
definition belong to that nested function, not to `q`. -/
def specRecStmt (q : String) (cls : Option String) : PStmt → Bool
  | PStmt.funcDef _ _ => false
  | PStmt.classDef c body => specRecStmts q (some c) body
  | PStmt.forLoop iter body => specRecExpr q cls iter || specRecStmts q cls body
  | PStmt.whileLoop test body => specRecExpr q cls test || specRecStmts q cls body
  | PStmt.exprStmt e => specRecExpr q cls e
  | PStmt.passStmt => false
def specRecStmts (q : String) (cls : Option String) : PStmtList → Bool
  | PStmtList.nil => false
  | PStmtList.cons t rest => specRecStmt q cls t || specRecStmts q cls rest
end

mutual
/-- No function definition occurs anywhere in the statement (through
classes and loops included). -/
def funcFreeStmt : PStmt → Bool
  | PStmt.funcDef _ _ => false
  | PStmt.classDef _ body => funcFreeStmts body
  | PStmt.forLoop _ body => funcFreeStmts body
  | PStmt.whileLoop _ body => funcFreeStmts body
  | PStmt.exprStmt _ => true
  | PStmt.passStmt => true
def funcFreeStmts : PStmtList → Bool
  | PStmtList.nil => true
  | PStmtList.cons t rest => funcFreeStmt t && funcFreeStmts rest
end

mutual
/-- Isolated-definition discipline: no function definition is lexically
nested inside another function's body or inside any loop body. -/
def isolatedStmt : PStmt → Bool
  | PStmt.funcDef _ body => funcFreeStmts body
  | PStmt.classDef _ body => isolatedStmts body
  | PStmt.forLoop _ body => funcFreeStmts body
  | PStmt.whileLoop _ body => funcFreeStmts body
  | PStmt.exprStmt _ => true
  | PStmt.passStmt => true
def isolatedStmts : PStmtList → Bool
  | PStmtList.nil => true
  | PStmtList.cons t rest => isolatedStmt t && isolatedStmts rest
end

mutual
/-- The function definitions of an isolated module, with their qualified
name, the class current at the definition site, and their body, in visitor
order. (Loop bodies hold no definitions under the isolated discipline.) -/
def collectFunsStmt (cls : Option String) : PStmt → List (String × Option String × PStmtList)
  | PStmt.funcDef nm body => [(qualName cls nm, cls, body)]
  | PStmt.classDef c body => collectFunsStmts (some c) body
  | _ => []
def collectFunsStmts (cls : Option String) : PStmtList → List (String × Option String × PStmtList)
  | PStmtList.nil => []
  | PStmtList.cons t rest => collectFunsStmt cls t ++ collectFunsStmts cls rest
end

/-- The Big-O label claim C2 predicts for a collected function definition:
the loop-depth map of its own lexical depth, plus the literal
`" (Recursive)"` suffix iff it contains a direct self-recursive call. -/
def specBigOLabel (e : String × Option String × PStmtList) : String :=
  bigOLabel (maxDepthFromStmts 0 e.2.2) ++
    (if specRecStmts e.1 e.2.1 e.2.2 then " (Recursive)" else "")

mutual
/-- Specification-side callee sequence of an expression, in visitor order:
for a call, the recorded name (bare identifier, or trailing attribute) comes
first, then the callees inside its `func` expression, then its arguments. -/
def specCallsExpr : PExpr → List String
  | PExpr.name _ => []
  | PExpr.lit => []
  | PExpr.attr v _ => specCallsExpr v
  | PExpr.call f args =>
    (match cgCalleeName f with | some c => [c] | none => []) ++
      specCallsExpr f ++ specCallsExprs args
def specCallsExprs : PExprList → List String
  | PExprList.nil => []
  | PExprList.cons e rest => specCallsExpr e ++ specCallsExprs rest
end

mutual
/-- Specification-side callee sequence of a function body: every call
inside the statements whose innermost enclosing function is this one (calls
inside a nested function definition belong to the nested function). -/
def specCallsStmt : PStmt → List String
  | PStmt.funcDef _ _ => []
  | PStmt.classDef _ body => specCallsStmts body
  | PStmt.forLoop iter body => specCallsExpr iter ++ specCallsStmts body
  | PStmt.whileLoop test body => specCallsExpr test ++ specCallsStmts body
  | PStmt.exprStmt e => specCallsExpr e
  | PStmt.passStmt => []
def specCallsStmts : PStmtList → List String
  | PStmtList.nil => []
  | PStmtList.cons t rest => specCallsStmt t ++ specCallsStmts rest
end

mutual
/-- All function definitions of a module with their qualified names and
bodies, in visitor order, descending into nested definitions (a nested
definition is keyed with the class current at its site, exactly as the
visitor's `current_class` stands there). -/
def cgFunsStmt (cls : Option String) : PStmt → List (String × PStmtList)
  | PStmt.funcDef nm body => (qualName cls nm, body) :: cgFunsStmts cls body
  | PStmt.classDef c body => cgFunsStmts (some c) body
  | PStmt.forLoop _ body => cgFunsStmts cls body
  | PStmt.whileLoop _ body => cgFunsStmts cls body
  | PStmt.exprStmt _ => []
  | PStmt.passStmt => []
def cgFunsStmts (cls : Option String) : PStmtList → List (String × PStmtList)
  | PStmtList.nil => []
  | PStmtList.cons t rest => cgFunsStmt cls t ++ cgFunsStmts cls rest
end

/-- Key list of an association list. -/
def keysOf {β : Type} (g : List (String × β)) : List String := g.map (fun p => p.1)

/-- Append callees to the adjacency list of `cf` (a no-op when `cf` is
`none`); `cgAppend` iterated. -/
def cgExtend (g : List (String × List String)) (cf : Option String) (cs : List String) :
    List (String × List String) :=
  match cf with
  | none => g
  | some q => g.map (fun p => if p.1 == q then (p.1, p.2 ++ cs) else p)

/-- Fold `dictInsert` over a list of bindings. -/
def insertAll (r : List (String × String)) (es : List (String × String)) :
    List (String × String) :=
  es.foldl (fun acc p => dictInsert acc p.1 p.2) r

/-! ## Line-level extractor (`code/profiler/dynamic/profiler.py`) -/

/-- One `pstats` record value `(cc, nc, tt, ct)` (callers are unused). -/
structure PStatV where
  cc : Nat
  nc : Nat
  tt : ℚ
  ct : ℚ
  deriving DecidableEq, Repr

/-- One per-line record (profiler.py:175-179). -/
structure LineEntry where
  hits : Nat
  total_time : ℚ
  time_per_hit : ℚ
  deriving DecidableEq, Repr

/-- One per-function record (profiler.py:166-171), with `lines` keyed by
`str(line)` in insertion order. -/
structure FuncEntry where
  filename : String
  lines : List (String × LineEntry)
  total_calls : Nat
  total_time : ℚ
  deriving DecidableEq, Repr

/-- Whether a run of characters occurs anywhere in another. -/
def startsWithL : List Char → List Char → Bool
  | [], _ => true
  | _ :: _, [] => false
  | n :: ns, h :: hs => n == h && startsWithL ns hs

/-- Substring occurrence on character lists. -/
def hasSubL (needle : List Char) : List Char → Bool
  | [] => needle.isEmpty
  | h :: hs => startsWithL needle (h :: hs) || hasSubL needle hs

/-- The frame filter of `_extract_line_profiles` (profiler.py:161):
skip synthetic locations (`'<'` in the path) and standard-library code
(`'lib/python'` in the path). -/
def skipFile (filename : String) : Bool :=
  filename.toList.contains '<' || hasSubL "lib/python".toList filename.toList

/-- Python dict assignment on the per-line dict. -/
def lineDictSet (l : List (String × LineEntry)) (k : String) (v : LineEntry) :
    List (String × LineEntry) :=
  if l.any (fun p => p.1 == k) then l.map (fun p => if p.1 == k then (k, v) else p)
  else l ++ [(k, v)]

/-- `line_data[func_name]["lines"][str(line)] = ...` (profiler.py:174-179). -/
def setLine (ld : List (String × FuncEntry)) (fn : String) (lk : String) (v : LineEntry) :
    List (String × FuncEntry) :=
  ld.map (fun p => if p.1 == fn then (p.1, { p.2 with lines := lineDictSet p.2.lines lk v }) else p)

/-- The per-line record built for one stats item (profiler.py:175-179). -/
def mkLineEntry (st : PStatV) : LineEntry :=
  ⟨st.nc, pyRound (st.tt * 1000) 3,
   pyRound (if st.nc > 0 then st.tt / st.nc * 1000 else 0) 3⟩

/-- Processing of one `stats.stats` item (profiler.py:157-179): skip
synthetic/stdlib frames; create the function entry keyed by the function
NAME only if absent; then store the line record under `str(line)`. -/
def lineProfileStep (line_data : List (String × FuncEntry))
    (item : (String × Nat × String) × PStatV) : List (String × FuncEntry) :=
  let filename := item.1.1
  let line := item.1.2.1
  let func_name := item.1.2.2
  let st := item.2
  if skipFile filename then line_data
  else
    let ld1 :=
      if line_data.any (fun p => p.1 == func_name) then line_data
      else line_data ++ [(func_name, ⟨filename, [], st.nc, st.tt⟩)]
    setLine ld1 func_name (toString line) (mkLineEntry st)

/-- `DynamicProfiler._extract_line_profiles` (profiler.py:146-185), as a
function of the deterministic profile's stats items in iteration order. -/
def extractLineProfiles (stats : List ((String × Nat × String) × PStatV)) :
    List (String × FuncEntry) :=
  stats.foldl lineProfileStep []

/-- The per-function record claim C8's amended form predicts for one
retained stats item (its own single source line). -/
def specFuncEntry (item : (String × Nat × String) × PStatV) : String × FuncEntry :=
  (item.1.2.2, ⟨item.1.1, [(toString item.1.2.1, mkLineEntry item.2)], item.2.nc, item.2.tt⟩)

/-! ## Proof infrastructure: visitor invariants and example programs -/

/-- The recursion mark contributed by an expression when the visitor's
`current_function`/`current_class` are `cf`/`cls` (no mark outside a
function). -/
def recMarkE (cf cls : Option String) (e : PExpr) : Bool :=
  match cf with
  | some q => specRecExpr q cls e
  | none => false

/-- `recMarkE` on an argument list. -/
def recMarkEs (cf cls : Option String) (l : PExprList) : Bool :=
  match cf with
  | some q => specRecExprs q cls l
  | none => false

/-- The recursion mark contributed by a statement. -/
def recMarkS (cf cls : Option String) (t : PStmt) : Bool :=
  match cf with
  | some q => specRecStmt q cls t
  | none => false

/-- `recMarkS` on a statement list. -/
def recMarkSs (cf cls : Option String) (l : PStmtList) : Bool :=
  match cf with
  | some q => specRecStmts q cls l
  | none => false

/-- The callee mark of one call node: whether its resolved callee equals
the current function. -/
def callMark (cf cls : Option String) (f : PExpr) : Bool :=
  match cf with
  | some q => bigOCallee cls f == some q
  | none => false

/-- Effect of the Big-O visitor on function-definition-free code: results
and traversal context are preserved, the loop counter is balanced, the
running maximum absorbs `md`, and the recursion flag absorbs `rm`. -/
def FFRes (s s2 : BigOState) (md : Nat) (rm : Bool) : Prop :=
  s2.results = s.results ∧ s2.current_function = s.current_function ∧
  s2.current_class = s.current_class ∧ s2.loop_depth = s.loop_depth ∧
  s2.max_loop_depth = max s.max_loop_depth md ∧
  s2.is_recursive = (s.is_recursive || rm)

/-- Effect of the Big-O visitor at module/class level on isolated code:
the labelled function entries are inserted and the traversal context is
restored (outside any function, outside any loop). -/
def TopRes (s s2 : BigOState) (entries : List (String × Option String × PStmtList)) : Prop :=
  s2.results = insertAll s.results (entries.map (fun e => (e.1, specBigOLabel e))) ∧
  s2.current_function = none ∧ s2.current_class = s.current_class ∧ s2.loop_depth = 0

/-- Effect of the call-graph visitor on one expression when the current
function is `cf`: the callee names are appended to `cf`'s adjacency list. -/
def CGERes (cf : Option String) (s s2 : CGState) (cs : List String) : Prop :=
  s2.graph = cgExtend s.graph cf cs ∧
  s2.current_function = s.current_function ∧ s2.current_class = s.current_class

/-- Effect of the call-graph visitor on statements when the current
function is `cf`: callee names are appended to `cf`'s list and one
adjacency entry is created per function definition encountered. -/
def CGSRes (cf : Option String) (s s2 : CGState) (cs : List String)
    (entries : List (String × PStmtList)) : Prop :=
  s2.graph = cgExtend s.graph cf cs ++
    entries.map (fun e => (e.1, specCallsStmts e.2)) ∧
  s2.current_function = s.current_function ∧ s2.current_class = s.current_class

/-- Example module for claim C2's witness:
`def recursive_func(): recursive_func()` then
`def linear_time(): for i in xs: pass`. -/
def modC2wit : PStmtList :=
  PStmtList.cons
    (PStmt.funcDef "recursive_func"
      (PStmtList.cons
        (PStmt.exprStmt (PExpr.call (PExpr.name "recursive_func") PExprList.nil))
        PStmtList.nil))
    (PStmtList.cons
      (PStmt.funcDef "linear_time"
        (PStmtList.cons
          (PStmt.forLoop (PExpr.name "xs") (PStmtList.cons PStmt.passStmt PStmtList.nil))
          PStmtList.nil))
      PStmtList.nil)

/-- Body of `f` in `modC2cex`: a loop followed by a nested definition. -/
def modC2cexBody : PStmtList :=
  PStmtList.cons
    (PStmt.forLoop (PExpr.name "xs") (PStmtList.cons PStmt.passStmt PStmtList.nil))
    (PStmtList.cons
      (PStmt.funcDef "g" (PStmtList.cons PStmt.passStmt PStmtList.nil))
      PStmtList.nil)

/-- Example module for claim C2's counterexample:
`def f(): for i in xs: pass ; def g(): pass` (nested definition after a
depth-1 loop). -/
def modC2cex : PStmtList :=
  PStmtList.cons (PStmt.funcDef "f" modC2cexBody) PStmtList.nil

/-- Body of `f` in `modC3a`: only a nested definition containing a loop. -/
def modC3aBody : PStmtList :=
  PStmtList.cons
    (PStmt.funcDef "g"
      (PStmtList.cons
        (PStmt.forLoop (PExpr.name "xs") (PStmtList.cons PStmt.passStmt PStmtList.nil))
        PStmtList.nil))
    PStmtList.nil

/-- Failing input for claim C3: `def f(): def g(): for i in xs: pass`. -/
def modC3a : PStmtList :=
  PStmtList.cons (PStmt.funcDef "f" modC3aBody) PStmtList.nil

/-- Body of `k` in `modC3b`: a single depth-1 loop. -/
def modC3bInner : PStmtList :=
  PStmtList.cons
    (PStmt.forLoop (PExpr.name "ys") (PStmtList.cons PStmt.passStmt PStmtList.nil))
    PStmtList.nil

/-- Second failing input for claim C3:
`def h(): for i in xs: def k(): for j in ys: pass` (definition inside a
loop). -/
def modC3b : PStmtList :=
  PStmtList.cons
    (PStmt.funcDef "h"
      (PStmtList.cons
        (PStmt.forLoop (PExpr.name "xs")
          (PStmtList.cons (PStmt.funcDef "k" modC3bInner) PStmtList.nil))
        PStmtList.nil))
    PStmtList.nil

/-- Example module for claim C4's witness: `def a(): b()`,
`def b(): print('x')`, and a module-scope `print(42)`. -/
def modC4wit : PStmtList :=
  PStmtList.cons
    (PStmt.funcDef "a"
      (PStmtList.cons (PStmt.exprStmt (PExpr.call (PExpr.name "b") PExprList.nil))
        PStmtList.nil))
    (PStmtList.cons
      (PStmt.funcDef "b"
        (PStmtList.cons
          (PStmt.exprStmt
            (PExpr.call (PExpr.name "print") (PExprList.cons PExpr.lit PExprList.nil)))
          PStmtList.nil))
      (PStmtList.cons
        (PStmt.exprStmt
          (PExpr.call (PExpr.name "print") (PExprList.cons PExpr.lit PExprList.nil)))
        PStmtList.nil))

/-! ## Theorems -/

/-- The status conditional of the comparator characterised by the sign of
the diff. -/
theorem status_if_iff (d : ℚ) :
    (((if d < 0 then "improved" else if d > 0 then "degraded" else "neutral") : String) =
        "improved" ↔ d < 0) ∧
    (((if d < 0 then "improved" else if d > 0 then "degraded" else "neutral") : String) =
        "degraded" ↔ 0 < d) ∧
    (((if d < 0 then "improved" else if d > 0 then "degraded" else "neutral") : String) =
        "neutral" ↔ d = 0) := by
  rcases lt_trichotomy d 0 with h | h | h
  · rw [if_pos h]
    exact ⟨⟨fun _ => h, fun _ => rfl⟩,
      ⟨fun hs => absurd hs (by decide), fun hd => absurd (lt_trans h hd) (lt_irrefl d)⟩,
      ⟨fun hs => absurd hs (by decide), fun h0 => absurd (h0 ▸ h) (lt_irrefl 0)⟩⟩
  · subst h
    rw [if_neg (lt_irrefl 0), if_neg (lt_irrefl 0)]
    exact ⟨⟨fun hs => absurd hs (by decide), fun hd => absurd hd (lt_irrefl 0)⟩,
      ⟨fun hs => absurd hs (by decide), fun hd => absurd hd (lt_irrefl 0)⟩,
      ⟨fun _ => rfl, fun _ => rfl⟩⟩
  · rw [if_neg (not_lt.mpr h.le), if_pos h]
    exact ⟨⟨fun hs => absurd hs (by decide), fun hd => absurd (lt_trans hd h) (lt_irrefl d)⟩,
      ⟨fun _ => h, fun _ => rfl⟩,
      ⟨fun hs => absurd hs (by decide), fun h0 => absurd (h0 ▸ h) (lt_irrefl 0)⟩⟩

/-- Each entry built by `compareOne` from the raw optional values satisfies
claim C1's description. -/
theorem compareOne_claimed (x y : Option ℚ) :
    ClaimedEntry x y (compareOne (x.getD 0) (y.getD 0)) :=
  ⟨rfl, rfl, rfl,
    fun h => if_pos h,
    fun h => if_neg (fun hn => hn h),
    (status_if_iff _).1, (status_if_iff _).2.1, (status_if_iff _).2.2⟩

/-- C1. For every pair of reports and every metric in the fixed comparator
set (wall_time, cpu_time, peak_memory, current_memory, total_objects,
total_size_bytes, total_allocations), the comparator returns
baseline = float(the baseline value or 0), comparison = float(the
comparison value or 0), diff = comparison − baseline, pct =
diff/baseline·100 when baseline ≠ 0 and 0.0 when baseline = 0, and
status = "improved" iff diff < 0, "degraded" iff diff > 0, "neutral" iff
diff = 0. -/
theorem c1_comparator_entries (a b : Report) :
    (∃ e, List.lookup "wall_time" (comparatorCompare a b).time = some e ∧
      ClaimedEntry (a.dynamic_analysis.time "wall_time")
        (b.dynamic_analysis.time "wall_time") e) ∧
    (∃ e, List.lookup "cpu_time" (comparatorCompare a b).time = some e ∧
      ClaimedEntry (a.dynamic_analysis.time "cpu_time")
        (b.dynamic_analysis.time "cpu_time") e) ∧
    (∃ e, List.lookup "peak_memory" (comparatorCompare a b).memory = some e ∧
      ClaimedEntry (a.dynamic_analysis.memory "peak_memory")
        (b.dynamic_analysis.memory "peak_memory") e) ∧
    (∃ e, List.lookup "current_memory" (comparatorCompare a b).memory = some e ∧
      ClaimedEntry (a.dynamic_analysis.memory "current_memory")
        (b.dynamic_analysis.memory "current_memory") e) ∧
    (∃ e, List.lookup "total_objects" (comparatorCompare a b).gc = some e ∧
      ClaimedEntry a.dynamic_analysis.gc.total_objects
        b.dynamic_analysis.gc.total_objects e) ∧
    (∃ e, List.lookup "total_size_bytes" (comparatorCompare a b).allocations = some e ∧
      ClaimedEntry (a.dynamic_analysis.allocations "total_size_bytes")
        (b.dynamic_analysis.allocations "total_size_bytes") e) ∧
    (∃ e, List.lookup "total_allocations" (comparatorCompare a b).allocations = some e ∧
      ClaimedEntry (a.dynamic_analysis.allocations "total_allocations")
        (b.dynamic_analysis.allocations "total_allocations") e) :=
  ⟨⟨_, rfl, compareOne_claimed _ _⟩, ⟨_, rfl, compareOne_claimed _ _⟩,
   ⟨_, rfl, compareOne_claimed _ _⟩, ⟨_, rfl, compareOne_claimed _ _⟩,
   ⟨_, rfl, compareOne_claimed _ _⟩, ⟨_, rfl, compareOne_claimed _ _⟩,
   ⟨_, rfl, compareOne_claimed _ _⟩⟩

/-- C9. For every input source text that fails to parse, each static
sub-analysis (Big-O estimation and call-graph construction) returns an
empty mapping and does not raise to the caller. -/
theorem c9_parse_error_empty (msg : String) :
    analyzeBigO (Except.error msg) = [] ∧ buildCallGraph (Except.error msg) = [] :=
  ⟨rfl, rfl⟩

/-- C5. For every non-empty mock-input sequence and every invocation of
the substituted input hook: the hook first checks elapsed wall time against
timeout_seconds and raises a timeout error if exceeded; otherwise the
invocation at index i returns the i-th sequence element while i is within
the sequence (advancing the index), and every invocation after the
sequence is exhausted returns the final element. -/
theorem c5_mock_input (st : MockInputState) (now : ℚ) (hne : st.inputs ≠ []) :
    (st.timeout < now - st.start_time →
      mockInputCall st now =
        Except.error ("Execution timeout (" ++ toString st.timeout ++ "s limit)")) ∧
    (now - st.start_time ≤ st.timeout →
      (∀ h : st.index < st.inputs.length,
        mockInputCall st now =
          Except.ok (st.inputs.get ⟨st.index, h⟩, { st with index := st.index + 1 })) ∧
      (st.inputs.length ≤ st.index →
        mockInputCall st now = Except.ok (st.inputs.getLast hne, st))) := by
  constructor
  · intro h
    simp only [mockInputCall]
    rw [if_pos h]
  · intro h
    have hng : ¬ (now - st.start_time > st.timeout) := not_lt.mpr h
    constructor
    · intro hidx
      simp only [mockInputCall]
      rw [if_neg hng, dif_pos hidx]
    · intro hlen
      simp only [mockInputCall]
      rw [if_neg hng, dif_neg (not_lt.mpr hlen)]
      rw [List.getLast?_eq_getLast st.inputs hne]

/-- Witness for C5 at a concrete state and time. -/
theorem c5_mock_input_witness :
    mockInputCall ⟨["1", "2"], 0, 0, 10⟩ 1 =
      Except.ok ("1", ⟨["1", "2"], 1, 0, 10⟩) :=
  ((c5_mock_input ⟨["1", "2"], 0, 0, 10⟩ 1 (by decide)).2 (by norm_num)).1 (by decide)

/-- C10. For a substituted input hook constructed with an empty mock-input
sequence, every invocation that passes the timeout check returns the
literal string "exit" (in both the measured pass and the line-level pass). -/
theorem c10_empty_inputs (st st2 : MockInputState) (now now2 : ℚ)
    (h1 : st.inputs = []) (ht1 : now - st.start_time ≤ st.timeout)
    (h2 : st2.inputs = []) (ht2 : now2 - st2.start_time ≤ st2.timeout) :
    mockInputCall st now = Except.ok ("exit", st) ∧
    mockInputCallLine st2 now2 = Except.ok ("exit", st2) := by
  constructor
  · simp only [mockInputCall]
    rw [if_neg (not_lt.mpr ht1)]
    have hlt : ¬ st.index < st.inputs.length := by rw [h1]; simp
    rw [dif_neg hlt, h1]
    rfl
  · simp only [mockInputCallLine]
    rw [if_neg (not_lt.mpr ht2)]
    have hlt : ¬ st2.index < st2.inputs.length := by rw [h2]; simp
    rw [dif_neg hlt, h2]
    rfl

/-- Witness for C10 at concrete states and times. -/
theorem c10_empty_inputs_witness :
    mockInputCall ⟨[], 0, 0, 5⟩ 1 = Except.ok ("exit", ⟨[], 0, 0, 5⟩) ∧
    mockInputCallLine ⟨[], 0, 0, 5⟩ 1 = Except.ok ("exit", ⟨[], 0, 0, 5⟩) :=
  c10_empty_inputs _ _ _ _ rfl (by norm_num) rfl (by norm_num)

/-- C6. For every entry/exit of the memory probe, the reported
current-memory delta equals max(0, current − baseline_current) and the
reported peak-memory delta equals max(peak, baseline_peak) − baseline_peak,
so both are ≥ 0 for all readings; likewise every voluntary/involuntary
context-switch delta the CPU probe reports is clamped to ≥ 0. -/
theorem c6_nonneg_deltas :
    (∀ (st : MemState) (current peak : ℤ),
      (memExit st current peak).current_memory = max 0 (current - st.baseline_current) ∧
      (memExit st current peak).peak_memory = max peak st.baseline_peak - st.baseline_peak ∧
      0 ≤ (memExit st current peak).current_memory ∧
      0 ≤ (memExit st current peak).peak_memory) ∧
    (∀ (st : CPUState) (usageNow : Option Rusage) (cp : ℚ) (m : CPUMetrics) (v i : ℤ),
      cpuGetMetrics st usageNow cp = some m →
      m.context_switches = some (v, i) → 0 ≤ v ∧ 0 ≤ i) := by
  constructor
  · intro st current peak
    exact ⟨rfl, rfl, le_max_left _ _, sub_nonneg.mpr (le_max_right peak st.baseline_peak)⟩
  · intro st usageNow cp m v i hm hcs
    simp only [cpuGetMetrics] at hm
    cases hsc : st.start_cpu with
    | none => rw [hsc] at hm; cases hm
    | some sc =>
      cases hec : st.end_cpu with
      | none => rw [hsc, hec] at hm; cases hm
      | some ec =>
        rw [hsc, hec] at hm
        cases hhr : st.hasResource with
        | true =>
          rw [hhr] at hm
          simp only [if_true] at hm
          cases hsr : st.start_rusage with
          | some sr =>
            cases hu : usageNow with
            | some usage =>
              rw [hsr, hu] at hm
              simp only [Option.some.injEq] at hm
              subst hm
              simp only [Option.some.injEq, Prod.mk.injEq] at hcs
              obtain ⟨hv, hi⟩ := hcs
              subst hv; subst hi
              exact ⟨le_max_left _ _, le_max_left _ _⟩
            | none =>
              rw [hsr, hu] at hm
              simp only [Option.some.injEq] at hm
              subst hm
              cases hs0 : st.start_ctx_switches with
              | some s0 =>
                cases he0 : st.end_ctx_switches with
                | some e0 =>
                  rw [hs0, he0] at hcs
                  simp only [Option.some.injEq, Prod.mk.injEq] at hcs
                  obtain ⟨hv, hi⟩ := hcs
                  subst hv; subst hi
                  exact ⟨le_max_left _ _, le_max_left _ _⟩
                | none => rw [hs0, he0] at hcs; cases hcs
              | none => rw [hs0] at hcs; cases hcs
          | none =>
            rw [hsr] at hm
            simp only [Option.some.injEq] at hm
            subst hm
            cases hs0 : st.start_ctx_switches with
            | some s0 =>
              cases he0 : st.end_ctx_switches with
              | some e0 =>
                rw [hs0, he0] at hcs
                simp only [Option.some.injEq, Prod.mk.injEq] at hcs
                obtain ⟨hv, hi⟩ := hcs
                subst hv; subst hi
                exact ⟨le_max_left _ _, le_max_left _ _⟩
              | none => rw [hs0, he0] at hcs; cases hcs
            | none => rw [hs0] at hcs; cases hcs
        | false =>
          rw [hhr] at hm
          simp only [Bool.false_eq_true, if_false, Option.some.injEq] at hm
          subst hm
          cases hs0 : st.start_ctx_switches with
          | some s0 =>
            cases he0 : st.end_ctx_switches with
            | some e0 =>
              rw [hs0, he0] at hcs
              simp only [Option.some.injEq, Prod.mk.injEq] at hcs
              obtain ⟨hv, hi⟩ := hcs
              subst hv; subst hi
              exact ⟨le_max_left _ _, le_max_left _ _⟩
            | none => rw [hs0, he0] at hcs; cases hcs
          | none => rw [hs0] at hcs; cases hcs

/-- Witness for C6: a memory exit that freed below baseline, and a CPU
reading whose raw context-switch deltas are negative. -/
theorem c6_nonneg_deltas_witness :
    (0:ℤ) ≤ (memExit ⟨0, 0, false, 5, 10⟩ 3 4).current_memory ∧
    (0:ℤ) ≤ (memExit ⟨0, 0, false, 5, 10⟩ 3 4).peak_memory ∧
    ((0:ℤ) ≤ max 0 ((1:ℤ) - 2) ∧ (0:ℤ) ≤ max 0 ((0:ℤ) - 3)) :=
  ⟨(c6_nonneg_deltas.1 ⟨0, 0, false, 5, 10⟩ 3 4).2.2.1,
   (c6_nonneg_deltas.1 ⟨0, 0, false, 5, 10⟩ 3 4).2.2.2,
   c6_nonneg_deltas.2 ⟨some ⟨0, 0⟩, some ⟨0, 0⟩, some ⟨2, 3⟩, some ⟨1, 0⟩, none, false⟩ none 0
     ⟨0 - 0, 0 - 0, 0, some (max 0 ((1:ℤ) - 2), max 0 ((0:ℤ) - 3))⟩
     (max 0 ((1:ℤ) - 2)) (max 0 ((0:ℤ) - 3)) rfl rfl⟩

/-- C7 counterexample: the freshly constructed time probe's `metrics()` is
a non-empty (zero-valued) mapping, not the empty mapping the claim
demands. -/
theorem c7_fresh_time_not_empty : timeGetMetrics (timeInit false) ≠ [] := by
  simp [timeGetMetrics, timeInit]

/-- C7 (amended). Calling `metrics()` on a freshly constructed probe never
raises: the GC, CPU and allocation probes return an empty mapping, while
the time and memory probes return zero-valued mappings. -/
theorem c7_probe_fresh_metrics (hasResource : Bool) (usageNow : Option Rusage) (cp : ℚ)
    (countNow thresholds : Nat × Nat × Nat) (totalObjects : Nat) (enabled : Bool) :
    gcGetMetrics gcInit countNow thresholds totalObjects enabled = [] ∧
    cpuGetMetrics (cpuInit hasResource) usageNow cp = none ∧
    allocGetMetrics allocInit = none ∧
    timeGetMetrics (timeInit false) = [("wall_time", TVal.num 0), ("cpu_time", TVal.num 0)] ∧
    memGetMetrics memInit = [("current_memory", 0), ("peak_memory", 0)] := by
  refine ⟨rfl, rfl, rfl, ?_, rfl⟩
  simp [timeGetMetrics, timeInit]

/-- Keys of a cons. -/
theorem keysOf_cons {β : Type} (p : String × β) (g : List (String × β)) :
    keysOf (p :: g) = p.1 :: keysOf g := rfl

/-- Keys of an append. -/
theorem keysOf_append {β : Type} (g1 g2 : List (String × β)) :
    keysOf (g1 ++ g2) = keysOf g1 ++ keysOf g2 :=
  List.map_append _ _ _

/-- A key-membership test fails on an association list not holding the key. -/
theorem anyKey_eq_false {β : Type} (g : List (String × β)) (k : String) (h : k ∉ keysOf g) :
    g.any (fun p => p.1 == k) = false := by
  induction g with
  | nil => rfl
  | cons p rest ih =>
    rw [keysOf_cons] at h
    have h1 : k ≠ p.1 := fun he => h (he ▸ List.mem_cons_self _ _)
    have h2 : k ∉ keysOf rest := fun hm => h (List.mem_cons_of_mem _ hm)
    simp only [List.any_cons, ih h2, Bool.or_false]
    exact beq_eq_false_iff_ne.mpr (fun he => h1 he.symm)

/-- `setLine` leaves an association list without the key unchanged. -/
theorem setLine_not_mem (ld : List (String × FuncEntry)) (fn lk : String) (v : LineEntry)
    (h : fn ∉ keysOf ld) : setLine ld fn lk v = ld := by
  induction ld with
  | nil => rfl
  | cons p rest ih =>
    rw [keysOf_cons] at h
    have h1 : fn ≠ p.1 := fun he => h (he ▸ List.mem_cons_self _ _)
    have h2 : fn ∉ keysOf rest := fun hm => h (List.mem_cons_of_mem _ hm)
    simp only [setLine] at ih ⊢
    rw [List.map_cons, beq_eq_false_iff_ne.mpr (fun he => h1 he.symm)]
    simp only [Bool.false_eq_true, if_false, ih h2]

/-- Processing one retained stats item over an accumulator that does not
yet hold its function name appends exactly the claimed entry. -/
theorem lineProfileStep_fresh (acc : List (String × FuncEntry))
    (it : (String × Nat × String) × PStatV) (hs : skipFile it.1.1 = false)
    (h : it.1.2.2 ∉ keysOf acc) :
    lineProfileStep acc it = acc ++ [specFuncEntry it] := by
  simp only [lineProfileStep, hs, Bool.false_eq_true, if_false,
    anyKey_eq_false acc it.1.2.2 h]
  rw [show setLine (acc ++ [(it.1.2.2, ⟨it.1.1, [], it.2.nc, it.2.tt⟩)]) it.1.2.2
        (toString it.1.2.1) (mkLineEntry it.2) =
      setLine acc it.1.2.2 (toString it.1.2.1) (mkLineEntry it.2) ++
        setLine [(it.1.2.2, ⟨it.1.1, [], it.2.nc, it.2.tt⟩)] it.1.2.2
          (toString it.1.2.1) (mkLineEntry it.2) from List.map_append _ _ _]
  rw [setLine_not_mem acc _ _ _ h]
  simp [setLine, lineDictSet, specFuncEntry]

/-- Folding `_extract_line_profiles` over stats whose retained function
names are fresh and pairwise distinct appends one claimed entry per
retained item. -/
theorem extract_aux (stats : List ((String × Nat × String) × PStatV))
    (acc : List (String × FuncEntry))
    (hnd : ((stats.filter (fun it => !skipFile it.1.1)).map (fun it => it.1.2.2)).Nodup)
    (hd : ∀ it ∈ stats.filter (fun it => !skipFile it.1.1), it.1.2.2 ∉ keysOf acc) :
    stats.foldl lineProfileStep acc =
      acc ++ (stats.filter (fun it => !skipFile it.1.1)).map specFuncEntry := by
  induction stats generalizing acc with
  | nil => simp
  | cons it rest ih =>
    by_cases hs : skipFile it.1.1
    · have hfil : (it :: rest).filter (fun it => !skipFile it.1.1) =
          rest.filter (fun it => !skipFile it.1.1) := by
        simp [List.filter_cons, hs]
      rw [hfil] at hnd hd
      have hstep : lineProfileStep acc it = acc := by
        simp [lineProfileStep, hs]
      rw [List.foldl_cons, hstep, hfil]
      exact ih acc hnd hd
    · have hs' : skipFile it.1.1 = false := by
        simpa using hs
      have hfil : (it :: rest).filter (fun it => !skipFile it.1.1) =
          it :: rest.filter (fun it => !skipFile it.1.1) := by
        simp [List.filter_cons, hs']
      rw [hfil] at hnd hd
      have hfresh : it.1.2.2 ∉ keysOf acc := hd it (List.mem_cons_self _ _)
      rw [List.foldl_cons, lineProfileStep_fresh acc it hs' hfresh, hfil]
      have hnd' : ((rest.filter (fun it => !skipFile it.1.1)).map
          (fun it => it.1.2.2)).Nodup := by
        simpa using hnd.of_cons
      have hname : it.1.2.2 ∉ (rest.filter (fun it => !skipFile it.1.1)).map
          (fun it => it.1.2.2) := by
        have := hnd
        rw [List.map_cons] at this
        exact (List.nodup_cons.mp this).1
      have hd' : ∀ it2 ∈ rest.filter (fun it => !skipFile it.1.1),
          it2.1.2.2 ∉ keysOf (acc ++ [specFuncEntry it]) := by
        intro it2 hm2
        rw [keysOf_append]
        intro hmem
        rcases List.mem_append.mp hmem with hA | hB
        · exact hd it2 (List.mem_cons_of_mem _ hm2) hA
        · have : it2.1.2.2 = it.1.2.2 := by
            simpa [keysOf, specFuncEntry] using hB
          exact hname (this ▸ List.mem_map_of_mem (fun it => it.1.2.2) hm2)
      rw [ih (acc ++ [specFuncEntry it]) hnd' hd', List.append_assoc]
      rfl

/-- C8 counterexample: two retained frames with the same function name but
different files and first lines collapse into a single entry, where the
claim's (file, first-line, name) keying demands two. -/
theorem c8_name_collision :
    skipFile "a.py" = false ∧ skipFile "b.py" = false ∧
    (extractLineProfiles
      [(("a.py", 1, "f"), ⟨1, 1, 1, 1⟩), (("b.py", 5, "f"), ⟨1, 1, 1, 1⟩)]).length = 1 := by
  refine ⟨by decide, by decide, by decide⟩

/-- C8 (amended). The per-function line-level detail is keyed by the
function NAME alone (so two retained frames sharing a name collapse into
one entry); frames whose file path contains a synthetic marker or a
standard-library location are excluded; and when the retained frames have
pairwise distinct function names, each one yields exactly the entry holding
its file, total call count, total time, and the per-line record with hits,
millisecond-rounded total time and time-per-hit. -/
theorem c8_line_profiles (stats : List ((String × Nat × String) × PStatV))
    (hnd : ((stats.filter (fun it => !skipFile it.1.1)).map (fun it => it.1.2.2)).Nodup) :
    extractLineProfiles stats =
      (stats.filter (fun it => !skipFile it.1.1)).map specFuncEntry := by
  have h := extract_aux stats [] hnd (fun it _ => by simp [keysOf])
  simpa [extractLineProfiles] using h

/-- Witness for C8 at a concrete retained stats list. -/
theorem c8_line_profiles_witness :
    extractLineProfiles [(("a.py", 1, "f"), ⟨1, 1, 1, 1⟩)] =
      ([(("a.py", 1, "f"), (⟨1, 1, 1, 1⟩ : PStatV))].filter
        (fun it => !skipFile it.1.1)).map specFuncEntry :=
  c8_line_profiles _ (by decide)

/-- `recMarkE` on a bare name. -/
theorem recMarkE_name (cf cls : Option String) (id : String) :
    recMarkE cf cls (PExpr.name id) = false := by cases cf <;> rfl

/-- `recMarkE` on an opaque literal. -/
theorem recMarkE_lit (cf cls : Option String) : recMarkE cf cls PExpr.lit = false := by
  cases cf <;> rfl

/-- `recMarkE` on an attribute access descends into the value. -/
theorem recMarkE_attr (cf cls : Option String) (v : PExpr) (a : String) :
    recMarkE cf cls (PExpr.attr v a) = recMarkE cf cls v := by cases cf <;> rfl

/-- `recMarkE` on a call splits into callee mark, func part and arguments. -/
theorem recMarkE_call (cf cls : Option String) (f : PExpr) (args : PExprList) :
    recMarkE cf cls (PExpr.call f args) =
      (callMark cf cls f || recMarkE cf cls f || recMarkEs cf cls args) := by
  cases cf <;> simp [recMarkE, recMarkEs, callMark, specRecExpr]

/-- `recMarkEs` on the empty argument list. -/
theorem recMarkEs_nil (cf cls : Option String) : recMarkEs cf cls PExprList.nil = false := by
  cases cf <;> rfl

/-- `recMarkEs` on a cons of arguments. -/
theorem recMarkEs_cons (cf cls : Option String) (e : PExpr) (rest : PExprList) :
    recMarkEs cf cls (PExprList.cons e rest) =
      (recMarkE cf cls e || recMarkEs cf cls rest) := by
  cases cf <;> simp [recMarkE, recMarkEs, specRecExprs]

/-- `recMarkS` on a function definition (no mark: its calls are its own). -/
theorem recMarkS_funcDef (cf cls : Option String) (nm : String) (body : PStmtList) :
    recMarkS cf cls (PStmt.funcDef nm body) = false := by cases cf <;> rfl

/-- `recMarkS` on a class definition swaps the class context. -/
theorem recMarkS_classDef (cf cls : Option String) (c : String) (body : PStmtList) :
    recMarkS cf cls (PStmt.classDef c body) = recMarkSs cf (some c) body := by
  cases cf <;> rfl

/-- `recMarkS` on a for loop. -/
theorem recMarkS_forLoop (cf cls : Option String) (iter : PExpr) (body : PStmtList) :
    recMarkS cf cls (PStmt.forLoop iter body) =
      (recMarkE cf cls iter || recMarkSs cf cls body) := by
  cases cf <;> simp [recMarkS, recMarkE, recMarkSs, specRecStmt]

/-- `recMarkS` on a while loop. -/
theorem recMarkS_whileLoop (cf cls : Option String) (test : PExpr) (body : PStmtList) :
    recMarkS cf cls (PStmt.whileLoop test body) =
      (recMarkE cf cls test || recMarkSs cf cls body) := by
  cases cf <;> simp [recMarkS, recMarkE, recMarkSs, specRecStmt]

/-- `recMarkS` on an expression statement. -/
theorem recMarkS_exprStmt (cf cls : Option String) (e : PExpr) :
    recMarkS cf cls (PStmt.exprStmt e) = recMarkE cf cls e := by cases cf <;> rfl

/-- `recMarkS` on a pass statement. -/
theorem recMarkS_pass (cf cls : Option String) : recMarkS cf cls PStmt.passStmt = false := by
  cases cf <;> rfl

/-- `recMarkSs` on the empty statement list. -/
theorem recMarkSs_nil (cf cls : Option String) : recMarkSs cf cls PStmtList.nil = false := by
  cases cf <;> rfl

/-- `recMarkSs` on a cons of statements. -/
theorem recMarkSs_cons (cf cls : Option String) (t : PStmt) (rest : PStmtList) :
    recMarkSs cf cls (PStmtList.cons t rest) =
      (recMarkS cf cls t || recMarkSs cf cls rest) := by
  cases cf <;> simp [recMarkS, recMarkSs, specRecStmts]

/-- `callMark` under a known current function. -/
theorem callMark_some (q : String) (cls : Option String) (f : PExpr) :
    callMark (some q) cls f = (bigOCallee cls f == some q) := rfl

/-- The identity step of the funcFree invariant. -/
theorem FFRes_refl (s : BigOState) : FFRes s s 0 false :=
  ⟨rfl, rfl, rfl, rfl, (Nat.max_zero _).symm, (Bool.or_false _).symm⟩

/-- Transitivity of the funcFree invariant. -/
theorem FFRes_trans {s s1 s2 : BigOState} {m1 m2 : ℕ} {r1 r2 : Bool}
    (h1 : FFRes s s1 m1 r1) (h2 : FFRes s1 s2 m2 r2) :
    FFRes s s2 (max m1 m2) (r1 || r2) := by
  obtain ⟨a1, b1, c1, d1, e1, f1⟩ := h1
  obtain ⟨a2, b2, c2, d2, e2, f2⟩ := h2
  refine ⟨a2.trans a1, b2.trans b1, c2.trans c1, d2.trans d1, ?_, ?_⟩
  · rw [e2, e1, max_assoc]
  · rw [f2, f1, Bool.or_assoc]

mutual
/-- The Big-O visitor on an expression: state preserved except the
recursion flag, which absorbs the specification-side recursion mark. -/
theorem bigO_ff_expr (cf cls : Option String) (s : BigOState) (e : PExpr)
    (hcf : s.current_function = cf) (hcc : s.current_class = cls) :
    FFRes s (bigOVisitExpr s e) 0 (recMarkE cf cls e) := by
  cases e with
  | name id =>
    rw [recMarkE_name]
    exact FFRes_refl s
  | lit =>
    rw [recMarkE_lit]
    exact FFRes_refl s
  | attr v a =>
    rw [recMarkE_attr]
    exact bigO_ff_expr cf cls s v hcf hcc
  | call f args =>
    rw [recMarkE_call]
    cases cf with
    | none =>
      simp only [bigOVisitExpr, hcf]
      have h1 : FFRes s s 0 (callMark none cls f) := FFRes_refl s
      have h2 := bigO_ff_expr none cls s f hcf hcc
      have h3 := bigO_ff_exprs none cls (bigOVisitExpr s f) args
        ((h2.2.1).trans hcf) ((h2.2.2.1).trans hcc)
      exact FFRes_trans (FFRes_trans h1 h2) h3
    | some q =>
      simp only [bigOVisitExpr, hcf, hcc]
      cases hc : bigOCallee cls f with
      | none =>
        have hcm : callMark (some q) cls f = false := by
          rw [callMark_some, hc]; rfl
        have h1 : FFRes s s 0 (callMark (some q) cls f) :=
          ⟨rfl, rfl, rfl, rfl, (Nat.max_zero _).symm, by rw [hcm, Bool.or_false]⟩
        have h2 := bigO_ff_expr (some q) cls s f hcf hcc
        have h3 := bigO_ff_exprs (some q) cls (bigOVisitExpr s f) args
          ((h2.2.1).trans hcf) ((h2.2.2.1).trans hcc)
        exact FFRes_trans (FFRes_trans h1 h2) h3
      | some c =>
        dsimp only
        rcases Bool.eq_false_or_eq_true (c == q) with hcq | hcq
        · rw [hcq, if_pos rfl]
          have hcm : callMark (some q) cls f = true := by
            rw [callMark_some, hc]; exact hcq
          have h1 : FFRes s
              { results := s.results, current_function := some q, current_class := cls,
                loop_depth := s.loop_depth, max_loop_depth := s.max_loop_depth,
                is_recursive := true } 0 (callMark (some q) cls f) :=
            ⟨rfl, hcf.symm, hcc.symm, rfl, (Nat.max_zero _).symm, by rw [hcm, Bool.or_true]⟩
          have h2 := bigO_ff_expr (some q) cls
            { results := s.results, current_function := some q, current_class := cls,
              loop_depth := s.loop_depth, max_loop_depth := s.max_loop_depth,
              is_recursive := true } f rfl rfl
          have h3 := bigO_ff_exprs (some q) cls
            (bigOVisitExpr
              { results := s.results, current_function := some q, current_class := cls,
                loop_depth := s.loop_depth, max_loop_depth := s.max_loop_depth,
                is_recursive := true } f) args (h2.2.1) (h2.2.2.1)
          exact FFRes_trans (FFRes_trans h1 h2) h3
        · rw [hcq]
          simp only [Bool.false_eq_true, if_false]
          have hcm : callMark (some q) cls f = false := by
            rw [callMark_some, hc]; exact hcq
          have h1 : FFRes s s 0 (callMark (some q) cls f) :=
            ⟨rfl, rfl, rfl, rfl, (Nat.max_zero _).symm, by rw [hcm, Bool.or_false]⟩
          have h2 := bigO_ff_expr (some q) cls s f hcf hcc
          have h3 := bigO_ff_exprs (some q) cls (bigOVisitExpr s f) args
            ((h2.2.1).trans hcf) ((h2.2.2.1).trans hcc)
          exact FFRes_trans (FFRes_trans h1 h2) h3
/-- The Big-O visitor on an argument list. -/
theorem bigO_ff_exprs (cf cls : Option String) (s : BigOState) (l : PExprList)
    (hcf : s.current_function = cf) (hcc : s.current_class = cls) :
    FFRes s (bigOVisitExprs s l) 0 (recMarkEs cf cls l) := by
  cases l with
  | nil =>
    rw [recMarkEs_nil]
    exact FFRes_refl s
  | cons e rest =>
    rw [recMarkEs_cons]
    have h2 := bigO_ff_expr cf cls s e hcf hcc
    have h3 := bigO_ff_exprs cf cls (bigOVisitExpr s e) rest
      ((h2.2.1).trans hcf) ((h2.2.2.1).trans hcc)
    exact FFRes_trans h2 h3
end

mutual
/-- The Big-O visitor on a function-definition-free statement: results and
context preserved, loop counter balanced, running maximum absorbs the
lexical loop depth, recursion flag absorbs the recursion mark. -/
theorem bigO_ff_stmt (cf cls : Option String) (d : Nat) (s : BigOState) (t : PStmt)
    (hff : funcFreeStmt t = true) (hcf : s.current_function = cf)
    (hcc : s.current_class = cls) (hd : s.loop_depth = d) :
    FFRes s (bigOVisitStmt s t) (maxDepthFromStmt d t) (recMarkS cf cls t) := by
  cases t with
  | funcDef nm body => exact Bool.noConfusion hff
  | classDef c body =>
    rw [recMarkS_classDef]
    have h2 := bigO_ff_stmts cf (some c) d { s with current_class := some c } body hff hcf
      rfl hd
    obtain ⟨a2, b2, c2, d2, e2, f2⟩ := h2
    exact ⟨a2, b2, rfl, d2, e2, f2⟩
  | forLoop iter body =>
    rw [recMarkS_forLoop]
    set s1 : BigOState :=
      { s with loop_depth := s.loop_depth + 1,
               max_loop_depth := max s.max_loop_depth (s.loop_depth + 1) } with hs1
    have h2 := bigO_ff_expr cf cls s1 iter hcf hcc
    have h3 := bigO_ff_stmts cf cls (d + 1) (bigOVisitExpr s1 iter) body hff
      ((h2.2.1).trans hcf) ((h2.2.2.1).trans hcc)
      ((h2.2.2.2.1).trans (congrArg (· + 1) hd))
    obtain ⟨a2, b2, c2, d2, e2, f2⟩ := h2
    obtain ⟨a3, b3, c3, d3, e3, f3⟩ := h3
    refine ⟨a3.trans a2, b3.trans b2, c3.trans c2, ?_, ?_, ?_⟩
    · exact (congrArg (· - 1) (d3.trans d2)).trans (Nat.add_sub_cancel s.loop_depth 1)
    · show (bigOVisitStmts (bigOVisitExpr s1 iter) body).max_loop_depth =
        max s.max_loop_depth (max (d + 1) (maxDepthFromStmts (d + 1) body))
      rw [e3, e2, Nat.max_zero]
      show max (max s.max_loop_depth (s.loop_depth + 1)) (maxDepthFromStmts (d + 1) body) = _
      rw [hd, max_assoc]
    · show (bigOVisitStmts (bigOVisitExpr s1 iter) body).is_recursive =
        (s.is_recursive || (recMarkE cf cls iter || recMarkSs cf cls body))
      rw [f3, f2, Bool.or_assoc]
  | whileLoop test body =>
    rw [recMarkS_whileLoop]
    set s1 : BigOState :=
      { s with loop_depth := s.loop_depth + 1,
               max_loop_depth := max s.max_loop_depth (s.loop_depth + 1) } with hs1
    have h2 := bigO_ff_expr cf cls s1 test hcf hcc
    have h3 := bigO_ff_stmts cf cls (d + 1) (bigOVisitExpr s1 test) body hff
      ((h2.2.1).trans hcf) ((h2.2.2.1).trans hcc)
      ((h2.2.2.2.1).trans (congrArg (· + 1) hd))
    obtain ⟨a2, b2, c2, d2, e2, f2⟩ := h2
    obtain ⟨a3, b3, c3, d3, e3, f3⟩ := h3
    refine ⟨a3.trans a2, b3.trans b2, c3.trans c2, ?_, ?_, ?_⟩
    · exact (congrArg (· - 1) (d3.trans d2)).trans (Nat.add_sub_cancel s.loop_depth 1)
    · show (bigOVisitStmts (bigOVisitExpr s1 test) body).max_loop_depth =
        max s.max_loop_depth (max (d + 1) (maxDepthFromStmts (d + 1) body))
      rw [e3, e2, Nat.max_zero]
      show max (max s.max_loop_depth (s.loop_depth + 1)) (maxDepthFromStmts (d + 1) body) = _
      rw [hd, max_assoc]
    · show (bigOVisitStmts (bigOVisitExpr s1 test) body).is_recursive =
        (s.is_recursive || (recMarkE cf cls test || recMarkSs cf cls body))
      rw [f3, f2, Bool.or_assoc]
  | exprStmt e =>
    rw [recMarkS_exprStmt]
    exact bigO_ff_expr cf cls s e hcf hcc
  | passStmt =>
    rw [recMarkS_pass]
    exact FFRes_refl s
/-- The Big-O visitor on a function-definition-free statement list. -/
theorem bigO_ff_stmts (cf cls : Option String) (d : Nat) (s : BigOState) (l : PStmtList)
    (hff : funcFreeStmts l = true) (hcf : s.current_function = cf)
    (hcc : s.current_class = cls) (hd : s.loop_depth = d) :
    FFRes s (bigOVisitStmts s l) (maxDepthFromStmts d l) (recMarkSs cf cls l) := by
  cases l with
  | nil =>
    rw [recMarkSs_nil]
    exact FFRes_refl s
  | cons t rest =>
    rw [recMarkSs_cons]
    have hsplit : funcFreeStmt t = true ∧ funcFreeStmts rest = true := by
      have h := hff
      simp only [funcFreeStmts, Bool.and_eq_true] at h
      exact h
    have h2 := bigO_ff_stmt cf cls d s t hsplit.1 hcf hcc hd
    have h3 := bigO_ff_stmts cf cls d (bigOVisitStmt s t) rest hsplit.2
      ((h2.2.1).trans hcf) ((h2.2.2.1).trans hcc) ((h2.2.2.2.1).trans hd)
    exact FFRes_trans h2 h3
end

mutual
/-- The Big-O visitor at module/class level on one isolated statement:
the labelled entries of its function definitions are inserted into the
results dict and the traversal context is restored. -/
theorem bigO_top_stmt (s : BigOState) (t : PStmt) (hiso : isolatedStmt t = true)
    (hcf : s.current_function = none) (hld : s.loop_depth = 0) :
    TopRes s (bigOVisitStmt s t) (collectFunsStmt s.current_class t) := by
  cases t with
  | funcDef nm body =>
    have h := bigO_ff_stmts (some (qualName s.current_class nm)) s.current_class 0
      { s with current_function := some (qualName s.current_class nm),
               max_loop_depth := 0, is_recursive := false } body hiso rfl rfl hld
    obtain ⟨a, b, c2, d2, e, f⟩ := h
    refine ⟨?_, hcf, c2, d2.trans hld⟩
    have hmax : (bigOVisitStmts
        { s with current_function := some (qualName s.current_class nm),
                 max_loop_depth := 0, is_recursive := false } body).max_loop_depth =
        maxDepthFromStmts 0 body := by
      rw [e]; exact Nat.zero_max _
    have hrec : (bigOVisitStmts
        { s with current_function := some (qualName s.current_class nm),
                 max_loop_depth := 0, is_recursive := false } body).is_recursive =
        specRecStmts (qualName s.current_class nm) s.current_class body := by
      rw [f]; exact Bool.false_or _
    show dictInsert (bigOVisitStmts
        { s with current_function := some (qualName s.current_class nm),
                 max_loop_depth := 0, is_recursive := false } body).results
        (qualName s.current_class nm)
        (bigOLabel (bigOVisitStmts
          { s with current_function := some (qualName s.current_class nm),
                   max_loop_depth := 0, is_recursive := false } body).max_loop_depth ++
          (if (bigOVisitStmts
            { s with current_function := some (qualName s.current_class nm),
                     max_loop_depth := 0, is_recursive := false } body).is_recursive
           then " (Recursive)" else "")) =
      dictInsert s.results (qualName s.current_class nm)
        (specBigOLabel (qualName s.current_class nm, s.current_class, body))
    rw [a, hmax, hrec]
    rfl
  | classDef c body =>
    have h := bigO_top_stmts { s with current_class := some c } body hiso hcf hld
    exact ⟨h.1, h.2.1, rfl, h.2.2.2⟩
  | forLoop iter body =>
    have h := bigO_ff_stmt none s.current_class 0 s (PStmt.forLoop iter body) hiso hcf rfl hld
    obtain ⟨a, b, c2, d2, e, f⟩ := h
    exact ⟨a, b.trans hcf, c2, d2.trans hld⟩
  | whileLoop test body =>
    have h := bigO_ff_stmt none s.current_class 0 s (PStmt.whileLoop test body) hiso hcf rfl
      hld
    obtain ⟨a, b, c2, d2, e, f⟩ := h
    exact ⟨a, b.trans hcf, c2, d2.trans hld⟩
  | exprStmt e =>
    have h := bigO_ff_expr none s.current_class s e hcf rfl
    obtain ⟨a, b, c2, d2, _, _⟩ := h
    exact ⟨a, b.trans hcf, c2, d2.trans hld⟩
  | passStmt => exact ⟨rfl, hcf, rfl, hld⟩
/-- The Big-O visitor at module/class level on an isolated statement list. -/
theorem bigO_top_stmts (s : BigOState) (l : PStmtList) (hiso : isolatedStmts l = true)
    (hcf : s.current_function = none) (hld : s.loop_depth = 0) :
    TopRes s (bigOVisitStmts s l) (collectFunsStmts s.current_class l) := by
  cases l with
  | nil => exact ⟨rfl, hcf, rfl, hld⟩
  | cons t rest =>
    have hsplit : isolatedStmt t = true ∧ isolatedStmts rest = true := by
      have h := hiso
      simp only [isolatedStmts, Bool.and_eq_true] at h
      exact h
    have h1 := bigO_top_stmt s t hsplit.1 hcf hld
    have h2 := bigO_top_stmts (bigOVisitStmt s t) rest hsplit.2 h1.2.1 h1.2.2.2
    refine ⟨?_, h2.2.1, (h2.2.2.1).trans h1.2.2.1, h2.2.2.2⟩
    have hres := h2.1
    rw [h1.2.2.1, h1.1] at hres
    show (bigOVisitStmts (bigOVisitStmt s t) rest).results =
      insertAll s.results
        (((collectFunsStmt s.current_class t) ++ (collectFunsStmts s.current_class rest)).map
          (fun e => (e.1, specBigOLabel e)))
    rw [List.map_append]
    show _ = insertAll s.results
      ((collectFunsStmt s.current_class t).map (fun e => (e.1, specBigOLabel e)) ++
        (collectFunsStmts s.current_class rest).map (fun e => (e.1, specBigOLabel e)))
    rw [show insertAll s.results
        ((collectFunsStmt s.current_class t).map (fun e => (e.1, specBigOLabel e)) ++
          (collectFunsStmts s.current_class rest).map (fun e => (e.1, specBigOLabel e))) =
        insertAll (insertAll s.results
          ((collectFunsStmt s.current_class t).map (fun e => (e.1, specBigOLabel e))))
          ((collectFunsStmts s.current_class rest).map (fun e => (e.1, specBigOLabel e)))
      from List.foldl_append _ _ _ _]
    exact hres
end

/-- Inserting a fresh key appends at the end. -/
theorem dictInsert_fresh (r : List (String × String)) (k v : String) (h : k ∉ keysOf r) :
    dictInsert r k v = r ++ [(k, v)] := by
  simp [dictInsert, anyKey_eq_false r k h]

/-- Inserting bindings with fresh, pairwise-distinct keys appends them. -/
theorem insertAll_fresh (es : List (String × String)) (r : List (String × String))
    (hnd : (keysOf es).Nodup) (hd : ∀ k ∈ keysOf es, k ∉ keysOf r) :
    insertAll r es = r ++ es := by
  induction es generalizing r with
  | nil => simp [insertAll]
  | cons p rest ih =>
    obtain ⟨k, v⟩ := p
    rw [keysOf_cons] at hnd hd
    have hk : k ∉ keysOf r := hd k (List.mem_cons_self _ _)
    simp only [insertAll, List.foldl_cons]
    rw [dictInsert_fresh r k v hk]
    have hd' : ∀ k2 ∈ keysOf rest, k2 ∉ keysOf (r ++ [(k, v)]) := by
      intro k2 h2
      rw [keysOf_append]
      intro hmem
      rcases List.mem_append.mp hmem with hA | hB
      · exact hd k2 (List.mem_cons_of_mem _ h2) hA
      · have : k2 = k := by simpa [keysOf] using hB
        exact (List.nodup_cons.mp hnd).1 (this ▸ h2)
    have ih' := ih (r ++ [(k, v)]) hnd.of_cons hd'
    simp only [insertAll] at ih'
    rw [ih', List.append_assoc]
    rfl

/-- Lookup in an association list with pairwise-distinct keys finds each
binding. -/
theorem lookup_nodup (es : List (String × String)) (hnd : (keysOf es).Nodup)
    (k v : String) (hmem : (k, v) ∈ es) : List.lookup k es = some v := by
  induction es with
  | nil => cases hmem
  | cons p rest ih =>
    obtain ⟨k0, v0⟩ := p
    rw [keysOf_cons] at hnd
    rcases List.mem_cons.mp hmem with heq | hmem'
    · rw [Prod.mk.injEq] at heq
      obtain ⟨rfl, rfl⟩ := heq
      simp [List.lookup]
    · have hk : k ∈ keysOf rest := List.mem_map_of_mem (fun p => p.1) hmem'
      have hne : k ≠ k0 := fun he => (List.nodup_cons.mp hnd).1 (he ▸ hk)
      simp only [List.lookup, beq_eq_false_iff_ne.mpr hne]
      exact ih (List.nodup_cons.mp hnd).2 hmem'

/-- C2 (amended). For every parsed module in which no function definition
is lexically nested inside another function's body or inside any loop body,
and whose function definitions have pairwise-distinct qualified names, the
Big-O estimator labels each function definition with exactly the loop-depth
map of its own maximum lexical loop-nesting depth (0→"O(1)", 1→"O(n)",
2→"O(n^2)", 3→"O(n^3)", d→"O(n^d)"), with the literal " (Recursive)" suffix
appended iff the body contains a call whose resolved target (bare
identifier, or self.method resolved to ClassName.method) equals the
function's own qualified name — in particular a zero-loop recursive
function is labeled "O(1) (Recursive)". -/
theorem c2_bigO_isolated (m : PStmtList) (hiso : isolatedStmts m = true)
    (hnd : ((collectFunsStmts none m).map (fun e => e.1)).Nodup) :
    ∀ e ∈ collectFunsStmts none m,
      List.lookup e.1 (analyzeBigO (Except.ok m)) =
        some (bigOLabel (maxDepthFromStmts 0 e.2.2) ++
          (if specRecStmts e.1 e.2.1 e.2.2 then " (Recursive)" else "")) := by
  intro e hmem
  have htop := bigO_top_stmts bigOInit m hiso rfl rfl
  have hres : (bigOVisitStmts bigOInit m).results =
      insertAll [] ((collectFunsStmts none m).map (fun e => (e.1, specBigOLabel e))) :=
    htop.1
  have hkeys : keysOf ((collectFunsStmts none m).map (fun e => (e.1, specBigOLabel e))) =
      (collectFunsStmts none m).map (fun e => e.1) := by
    simp only [keysOf, List.map_map]
    rfl
  have hfresh := insertAll_fresh
    ((collectFunsStmts none m).map (fun e => (e.1, specBigOLabel e))) []
    (by rw [hkeys]; exact hnd) (by intro k hk hmem2; cases hmem2)
  have hb : analyzeBigO (Except.ok m) =
      (collectFunsStmts none m).map (fun e => (e.1, specBigOLabel e)) := by
    show (bigOVisitStmts bigOInit m).results = _
    rw [hres, hfresh]
    rfl
  rw [hb]
  exact lookup_nodup _ (by rw [hkeys]; exact hnd) e.1 (specBigOLabel e)
    (List.mem_map_of_mem _ hmem)

/-- Witness for C2 at a concrete module: a zero-loop self-recursive
function is labeled exactly "O(1) (Recursive)". -/
theorem c2_bigO_witness :
    List.lookup "recursive_func" (analyzeBigO (Except.ok modC2wit)) =
      some "O(1) (Recursive)" := by
  have h := c2_bigO_isolated modC2wit (by decide) (by decide)
    ("recursive_func", none,
      PStmtList.cons
        (PStmt.exprStmt (PExpr.call (PExpr.name "recursive_func") PExprList.nil))
        PStmtList.nil)
    (List.Mem.head _)
  rw [show (bigOLabel (maxDepthFromStmts 0
      (PStmtList.cons
        (PStmt.exprStmt (PExpr.call (PExpr.name "recursive_func") PExprList.nil))
        PStmtList.nil)) ++
      (if specRecStmts "recursive_func" none
        (PStmtList.cons
          (PStmt.exprStmt (PExpr.call (PExpr.name "recursive_func") PExprList.nil))
          PStmtList.nil) then " (Recursive)" else "")) = "O(1) (Recursive)" from by decide] at h
  exact h

/-- C2 counterexample: without the isolation restriction the claim as
stated fails — a function whose own body has a depth-1 loop followed by a
nested definition is labeled "O(1)" although its own maximum loop-nesting
depth is 1 (whose map is "O(n)"). -/
theorem c2_bigO_counterexample :
    List.lookup "f" (analyzeBigO (Except.ok modC2cex)) = some "O(1)" ∧
    maxDepthFromStmts 0 modC2cexBody = 1 ∧ bigOLabel 1 = "O(n)" ∧
    ("O(1)" : String) ≠ "O(n)" := by
  refine ⟨by decide, by decide, by decide, by decide⟩

/-- C3. Evaluation of the Big-O visitor at the failing inputs: in `modC3a`
(`def f(): def g(): for i in xs: pass`) the nested definition's loop leaks
into the enclosing function, so `f` is labeled "O(n)" although its own body
has no loop; in `modC3b` (`def h(): for i in xs: def k(): for j in ys:
pass`) the enclosing loop inflates the nested function, so `k` is labeled
"O(n^2)" although its own body has a single depth-1 loop. -/
theorem c3_nested_def_state_leak :
    List.lookup "f" (analyzeBigO (Except.ok modC3a)) = some "O(n)" ∧
    maxDepthFromStmts 0 modC3aBody = 0 ∧
    List.lookup "k" (analyzeBigO (Except.ok modC3b)) = some "O(n^2)" ∧
    maxDepthFromStmts 0 modC3bInner = 1 := by
  refine ⟨by decide, by decide, by decide, by decide⟩

/-- Extending with no callees is a no-op. -/
theorem cgExtend_nil (g : List (String × List String)) (cf : Option String) :
    cgExtend g cf [] = g := by
  cases cf with
  | none => rfl
  | some q =>
    show g.map _ = g
    induction g with
    | nil => rfl
    | cons p rest ih =>
      rw [List.map_cons, ih]
      congr 1
      split <;> simp

/-- Two successive extensions of the same list fuse. -/
theorem cgExtend_extend (g : List (String × List String)) (cf : Option String)
    (cs1 cs2 : List String) :
    cgExtend (cgExtend g cf cs1) cf cs2 = cgExtend g cf (cs1 ++ cs2) := by
  cases cf with
  | none => rfl
  | some q =>
    show (g.map _).map _ = g.map _
    rw [List.map_map]
    have hfun : ((fun p : String × List String => if p.1 == q then (p.1, p.2 ++ cs2) else p) ∘
        (fun p : String × List String => if p.1 == q then (p.1, p.2 ++ cs1) else p)) =
        (fun p : String × List String => if p.1 == q then (p.1, p.2 ++ (cs1 ++ cs2)) else p) := by
      funext p
      by_cases h : (p.1 == q) = true
      · simp [Function.comp, h, List.append_assoc]
      · simp [Function.comp, h]
    rw [hfun]

/-- Extending a list not holding the key is a no-op. -/
theorem cgExtend_not_mem (g : List (String × List String)) (q : String) (cs : List String)
    (h : q ∉ keysOf g) : cgExtend g (some q) cs = g := by
  show g.map _ = g
  induction g with
  | nil => rfl
  | cons p rest ih =>
    rw [keysOf_cons] at h
    have h1 : q ≠ p.1 := fun he => h (he ▸ List.mem_cons_self _ _)
    have h2 : q ∉ keysOf rest := fun hm => h (List.mem_cons_of_mem _ hm)
    rw [List.map_cons, beq_eq_false_iff_ne.mpr (fun he => h1 he.symm)]
    simp only [Bool.false_eq_true, if_false]
    rw [ih h2]

/-- Extension distributes over append. -/
theorem cgExtend_append (g1 g2 : List (String × List String)) (cf : Option String)
    (cs : List String) :
    cgExtend (g1 ++ g2) cf cs = cgExtend g1 cf cs ++ cgExtend g2 cf cs := by
  cases cf with
  | none => rfl
  | some q => exact List.map_append _ _ _

/-- Extension preserves the key list. -/
theorem keysOf_cgExtend (g : List (String × List String)) (cf : Option String)
    (cs : List String) : keysOf (cgExtend g cf cs) = keysOf g := by
  cases cf with
  | none => rfl
  | some q =>
    show keysOf (g.map _) = keysOf g
    simp only [keysOf, List.map_map]
    have hfun : ((fun p : String × List String => p.1) ∘
        (fun p : String × List String => if p.1 == q then (p.1, p.2 ++ cs) else p)) =
        (fun p : String × List String => p.1) := by
      funext p
      by_cases h : (p.1 == q) = true <;> simp [Function.comp, h]
    rw [hfun]

/-- The key list of the claimed adjacency entries is the collected key
list. -/
theorem keysOf_entriesMap (entries : List (String × PStmtList)) :
    keysOf (entries.map (fun e => (e.1, specCallsStmts e.2))) = keysOf entries := by
  simp only [keysOf, List.map_map]
  rfl

/-- Creating a fresh adjacency entry appends it. -/
theorem cgReset_fresh (g : List (String × List String)) (k : String) (h : k ∉ keysOf g) :
    cgReset g k = g ++ [(k, [])] := by
  simp [cgReset, anyKey_eq_false g k h]

/-- The identity step of the call-graph expression invariant. -/
theorem CGERes_refl (cf : Option String) (s : CGState) : CGERes cf s s [] :=
  ⟨(cgExtend_nil _ _).symm, rfl, rfl⟩

/-- Transitivity of the call-graph expression invariant. -/
theorem CGERes_trans {cf : Option String} {s s1 s2 : CGState} {cs1 cs2 : List String}
    (h1 : CGERes cf s s1 cs1) (h2 : CGERes cf s1 s2 cs2) :
    CGERes cf s s2 (cs1 ++ cs2) := by
  obtain ⟨g1, b1, c1⟩ := h1
  obtain ⟨g2, b2, c2⟩ := h2
  exact ⟨by rw [g2, g1, cgExtend_extend], b2.trans b1, c2.trans c1⟩

mutual
/-- The call-graph visitor on an expression appends exactly the
specification-side callee names to the current function's entry. -/
theorem cg_expr (cf cls : Option String) (s : CGState) (e : PExpr)
    (hcf : s.current_function = cf) (hcc : s.current_class = cls) :
    CGERes cf s (cgVisitExpr s e) (specCallsExpr e) := by
  cases e with
  | name id => exact CGERes_refl cf s
  | lit => exact CGERes_refl cf s
  | attr v a => exact cg_expr cf cls s v hcf hcc
  | call f args =>
    simp only [specCallsExpr]
    cases cf with
    | none =>
      simp only [cgVisitExpr, hcf]
      have h2 := cg_expr none cls s f hcf hcc
      have h3 := cg_exprs none cls (cgVisitExpr s f) args
        ((h2.2.1).trans hcf) ((h2.2.2).trans hcc)
      exact CGERes_trans (CGERes_trans (CGERes_refl none s) h2) h3
    | some q =>
      simp only [cgVisitExpr, hcf]
      cases hc : cgCalleeName f with
      | none =>
        dsimp only
        have h2 := cg_expr (some q) cls s f hcf hcc
        have h3 := cg_exprs (some q) cls (cgVisitExpr s f) args
          ((h2.2.1).trans hcf) ((h2.2.2).trans hcc)
        exact CGERes_trans (CGERes_trans (CGERes_refl (some q) s) h2) h3
      | some c =>
        dsimp only
        have h1 : CGERes (some q) s
            { graph := cgAppend s.graph q c, current_function := some q,
              current_class := s.current_class } [c] :=
          ⟨rfl, hcf.symm, rfl⟩
        have h2 := cg_expr (some q) cls
          { graph := cgAppend s.graph q c, current_function := some q,
            current_class := s.current_class } f rfl hcc
        have h3 := cg_exprs (some q) cls
          (cgVisitExpr
            { graph := cgAppend s.graph q c, current_function := some q,
              current_class := s.current_class } f) args
          (h2.2.1) ((h2.2.2).trans hcc)
        exact CGERes_trans (CGERes_trans h1 h2) h3
/-- The call-graph visitor on an argument list. -/
theorem cg_exprs (cf cls : Option String) (s : CGState) (l : PExprList)
    (hcf : s.current_function = cf) (hcc : s.current_class = cls) :
    CGERes cf s (cgVisitExprs s l) (specCallsExprs l) := by
  cases l with
  | nil => exact CGERes_refl cf s
  | cons e rest =>
    have h2 := cg_expr cf cls s e hcf hcc
    have h3 := cg_exprs cf cls (cgVisitExpr s e) rest
      ((h2.2.1).trans hcf) ((h2.2.2).trans hcc)
    exact CGERes_trans h2 h3
end

mutual
/-- The call-graph visitor on one statement: the current function's entry
absorbs the statement's callee names, and one adjacency entry appears per
function definition, holding exactly its body's callee names. -/
theorem cg_stmt (cf cls : Option String) (s : CGState) (t : PStmt)
    (hcf : s.current_function = cf) (hcc : s.current_class = cls)
    (hnd : (keysOf s.graph ++ keysOf (cgFunsStmt cls t)).Nodup)
    (hin : ∀ q2, cf = some q2 → q2 ∈ keysOf s.graph) :
    CGSRes cf s (cgVisitStmt s t) (specCallsStmt t) (cgFunsStmt cls t) := by
  subst hcf
  subst hcc
  cases t with
  | funcDef nm body =>
    have hqf : qualName s.current_class nm ∉ keysOf s.graph := by
      intro hq
      exact (List.disjoint_of_nodup_append hnd) hq (List.mem_cons_self _ _)
    have hreset := cgReset_fresh s.graph (qualName s.current_class nm) hqf
    have hk1 : keysOf (cgReset s.graph (qualName s.current_class nm)) =
        keysOf s.graph ++ [qualName s.current_class nm] := by
      rw [hreset, keysOf_append]
      rfl
    have hnd1 : (keysOf (cgReset s.graph (qualName s.current_class nm)) ++
        keysOf (cgFunsStmts s.current_class body)).Nodup := by
      rw [hk1, List.append_assoc]
      exact hnd
    have hin1 : ∀ q2, some (qualName s.current_class nm) = some q2 →
        q2 ∈ keysOf (cgReset s.graph (qualName s.current_class nm)) := by
      intro q2 he
      injection he with he
      rw [hk1]
      exact List.mem_append_right _ (he ▸ List.mem_singleton.mpr rfl)
    have h := cg_stmts (some (qualName s.current_class nm)) s.current_class
      { s with graph := cgReset s.graph (qualName s.current_class nm),
               current_function := some (qualName s.current_class nm) } body rfl rfl hnd1
      hin1
    obtain ⟨hg, hcf2, hcc2⟩ := h
    refine ⟨?_, rfl, hcc2⟩
    have hg2 : (cgVisitStmts
        { s with graph := cgReset s.graph (qualName s.current_class nm),
                 current_function := some (qualName s.current_class nm) } body).graph =
        cgExtend (cgReset s.graph (qualName s.current_class nm))
          (some (qualName s.current_class nm)) (specCallsStmts body) ++
          (cgFunsStmts s.current_class body).map (fun e => (e.1, specCallsStmts e.2)) := hg
    have hext : cgExtend (cgReset s.graph (qualName s.current_class nm))
        (some (qualName s.current_class nm)) (specCallsStmts body) =
        s.graph ++ [(qualName s.current_class nm, specCallsStmts body)] := by
      rw [hreset, cgExtend_append, cgExtend_not_mem _ _ _ hqf]
      congr 1
      simp [cgExtend]
    show (cgVisitStmts
        { s with graph := cgReset s.graph (qualName s.current_class nm),
                 current_function := some (qualName s.current_class nm) } body).graph =
      cgExtend s.graph s.current_function [] ++
        ((qualName s.current_class nm, body) :: cgFunsStmts s.current_class body).map
          (fun e => (e.1, specCallsStmts e.2))
    rw [hg2, hext, cgExtend_nil, List.map_cons, List.append_assoc]
    rfl
  | classDef c body =>
    have h := cg_stmts s.current_function (some c) { s with current_class := some c } body
      rfl rfl hnd hin
    obtain ⟨hg, hcf2, hcc2⟩ := h
    exact ⟨hg, hcf2, rfl⟩
  | forLoop iter body =>
    have he := cg_expr s.current_function s.current_class s iter rfl rfl
    have hkse : keysOf (cgVisitExpr s iter).graph = keysOf s.graph := by
      rw [he.1, keysOf_cgExtend]
    have hnd1 : (keysOf (cgVisitExpr s iter).graph ++
        keysOf (cgFunsStmts s.current_class body)).Nodup := by
      rw [hkse]; exact hnd
    have hin1 : ∀ q2, s.current_function = some q2 →
        q2 ∈ keysOf (cgVisitExpr s iter).graph := by
      intro q2 hq; rw [hkse]; exact hin q2 hq
    have h := cg_stmts s.current_function s.current_class (cgVisitExpr s iter) body
      (he.2.1) (he.2.2) hnd1 hin1
    obtain ⟨hg, hcf2, hcc2⟩ := h
    refine ⟨?_, hcf2.trans he.2.1, hcc2.trans he.2.2⟩
    show (cgVisitStmts (cgVisitExpr s iter) body).graph =
      cgExtend s.graph s.current_function (specCallsExpr iter ++ specCallsStmts body) ++
        (cgFunsStmts s.current_class body).map (fun e => (e.1, specCallsStmts e.2))
    rw [hg, he.1, cgExtend_extend]
  | whileLoop test body =>
    have he := cg_expr s.current_function s.current_class s test rfl rfl
    have hkse : keysOf (cgVisitExpr s test).graph = keysOf s.graph := by
      rw [he.1, keysOf_cgExtend]
    have hnd1 : (keysOf (cgVisitExpr s test).graph ++
        keysOf (cgFunsStmts s.current_class body)).Nodup := by
      rw [hkse]; exact hnd
    have hin1 : ∀ q2, s.current_function = some q2 →
        q2 ∈ keysOf (cgVisitExpr s test).graph := by
      intro q2 hq; rw [hkse]; exact hin q2 hq
    have h := cg_stmts s.current_function s.current_class (cgVisitExpr s test) body
      (he.2.1) (he.2.2) hnd1 hin1
    obtain ⟨hg, hcf2, hcc2⟩ := h
    refine ⟨?_, hcf2.trans he.2.1, hcc2.trans he.2.2⟩
    show (cgVisitStmts (cgVisitExpr s test) body).graph =
      cgExtend s.graph s.current_function (specCallsExpr test ++ specCallsStmts body) ++
        (cgFunsStmts s.current_class body).map (fun e => (e.1, specCallsStmts e.2))
    rw [hg, he.1, cgExtend_extend]
  | exprStmt e =>
    have he := cg_expr s.current_function s.current_class s e rfl rfl
    refine ⟨?_, he.2.1, he.2.2⟩
    show (cgVisitExpr s e).graph =
      cgExtend s.graph s.current_function (specCallsExpr e) ++
        ([] : List (String × PStmtList)).map (fun e => (e.1, specCallsStmts e.2))
    rw [he.1, List.map_nil, List.append_nil]
  | passStmt =>
    refine ⟨?_, rfl, rfl⟩
    show s.graph = cgExtend s.graph s.current_function [] ++
      ([] : List (String × PStmtList)).map (fun e => (e.1, specCallsStmts e.2))
    rw [cgExtend_nil, List.map_nil, List.append_nil]
/-- The call-graph visitor on a statement list. -/
theorem cg_stmts (cf cls : Option String) (s : CGState) (l : PStmtList)
    (hcf : s.current_function = cf) (hcc : s.current_class = cls)
    (hnd : (keysOf s.graph ++ keysOf (cgFunsStmts cls l)).Nodup)
    (hin : ∀ q2, cf = some q2 → q2 ∈ keysOf s.graph) :
    CGSRes cf s (cgVisitStmts s l) (specCallsStmts l) (cgFunsStmts cls l) := by
  subst hcf
  subst hcc
  cases l with
  | nil =>
    refine ⟨?_, rfl, rfl⟩
    show s.graph = cgExtend s.graph s.current_function [] ++
      ([] : List (String × PStmtList)).map (fun e => (e.1, specCallsStmts e.2))
    rw [cgExtend_nil, List.map_nil, List.append_nil]
  | cons t rest =>
    have hnd0 : (keysOf s.graph ++ (keysOf (cgFunsStmt s.current_class t) ++
        keysOf (cgFunsStmts s.current_class rest))).Nodup := by
      have h := hnd
      rw [show keysOf (cgFunsStmts s.current_class (PStmtList.cons t rest)) =
          keysOf (cgFunsStmt s.current_class t) ++ keysOf (cgFunsStmts s.current_class rest)
        from keysOf_append _ _] at h
      exact h
    have hnd1 : (keysOf s.graph ++ keysOf (cgFunsStmt s.current_class t)).Nodup := by
      have h := hnd0
      rw [← List.append_assoc] at h
      exact h.of_append_left
    have h1 := cg_stmt s.current_function s.current_class s t rfl rfl hnd1 hin
    have hku : keysOf (cgVisitStmt s t).graph =
        keysOf s.graph ++ keysOf (cgFunsStmt s.current_class t) := by
      rw [h1.1, keysOf_append, keysOf_cgExtend, keysOf_entriesMap]
    have hnd2 : (keysOf (cgVisitStmt s t).graph ++
        keysOf (cgFunsStmts s.current_class rest)).Nodup := by
      rw [hku, List.append_assoc]
      exact hnd0
    have hin2 : ∀ q2, s.current_function = some q2 →
        q2 ∈ keysOf (cgVisitStmt s t).graph := by
      intro q2 hq; rw [hku]; exact List.mem_append_left _ (hin q2 hq)
    have h2 := cg_stmts s.current_function s.current_class (cgVisitStmt s t) rest
      (h1.2.1) (h1.2.2) hnd2 hin2
    obtain ⟨hg2, hcf3, hcc3⟩ := h2
    refine ⟨?_, hcf3.trans h1.2.1, hcc3.trans h1.2.2⟩
    have hgu : (cgVisitStmt s t).graph =
        cgExtend s.graph s.current_function (specCallsStmt t) ++
          (cgFunsStmt s.current_class t).map (fun e => (e.1, specCallsStmts e.2)) := h1.1
    have hEt : cgExtend
        ((cgFunsStmt s.current_class t).map (fun e => (e.1, specCallsStmts e.2)))
        s.current_function (specCallsStmts rest) =
        (cgFunsStmt s.current_class t).map (fun e => (e.1, specCallsStmts e.2)) := by
      cases hq : s.current_function with
      | none => rfl
      | some q =>
        apply cgExtend_not_mem
        rw [keysOf_entriesMap]
        intro hmem
        exact (List.disjoint_of_nodup_append hnd1) (hin q hq) hmem
    show (cgVisitStmts (cgVisitStmt s t) rest).graph =
      cgExtend s.graph s.current_function (specCallsStmt t ++ specCallsStmts rest) ++
        ((cgFunsStmt s.current_class t ++ cgFunsStmts s.current_class rest).map
          (fun e => (e.1, specCallsStmts e.2)))
    rw [hg2, hgu, cgExtend_append, cgExtend_extend, hEt, List.map_append, List.append_assoc]
end

/-- C4. For every parsed module whose function definitions have
pairwise-distinct qualified names (ClassName.method or bare name), the call
graph maps exactly those qualified names, in visitor order, to the
sequence of callee names of the calls whose innermost enclosing function is
that definition — a call through a bare identifier records the identifier,
a call through attribute access records only the trailing attribute name,
and module-scope calls (outside every function) are recorded under no key. -/
theorem c4_call_graph (m : PStmtList) (hnd : (keysOf (cgFunsStmts none m)).Nodup) :
    buildCallGraph (Except.ok m) =
      (cgFunsStmts none m).map (fun e => (e.1, specCallsStmts e.2)) := by
  have h := cg_stmts none none (⟨[], none, none⟩ : CGState) m rfl rfl hnd
    (fun q2 h2 => Option.noConfusion h2)
  have hg : buildCallGraph (Except.ok m) =
      cgExtend [] none (specCallsStmts m) ++
        (cgFunsStmts none m).map (fun e => (e.1, specCallsStmts e.2)) := h.1
  rw [hg]
  rfl

/-- Witness for C4 at the specification's own example: `def a(): b()`,
`def b(): print('x')`, plus a module-scope `print(42)` that is attributed
to no key. -/
theorem c4_call_graph_witness :
    buildCallGraph (Except.ok modC4wit) = [("a", ["b"]), ("b", ["print"])] := by
  have h := c4_call_graph modC4wit (by decide)
  rw [h]
  decide
